import Mathlib

/-
Verification of the CF compiler core (src/compiler.py): the tape-cell
allocator, the head-tracking emitter, the move-cell idiom, the typed
intrinsics, and the target-machine semantics of the emitted code.

The embedding is shallow: the `Compiler` structure mirrors the mutable
fields of the Python `Compiler` object (`program`, `current_index`,
`non_allocated`, `gaps`); each emitter operation and intrinsic is a state
transformer.  The scoped `loop` helper can raise ("unbalanced loop"), so
operations that use it return `Except String Compiler`.  Byte values are
represented by the tape-cell index they own (the Python `Byte.pointer`).
Target cells are bytes, modelled as `ZMod 256`; the target machine is an
interpreter over a structured instruction type, connected to the flat
emitted character sequence by a parser.
-/

namespace CF

/-- Compiler state: the emitted program (one entry per `execute` call),
the predicted head `current_index`, the allocator's high-water mark
`non_allocated` and the freed-cell list `gaps`. -/
structure Compiler where
  program : List (List Char)
  current_index : Nat
  non_allocated : Nat
  gaps : List Nat
deriving DecidableEq

namespace Compiler

/-- Python `Compiler.execute`: append a chunk of target code. -/
def execute (c : Compiler) (code : List Char) : Compiler :=
  { c with program := c.program ++ [code] }

/-- Python `Compiler.goto`: emit `>` or `<` to move from the recorded head
to `index`, then record the new head. -/
def goto (c : Compiler) (index : Nat) : Compiler :=
  if c.current_index < index then
    { c.execute (List.replicate (index - c.current_index) '>') with current_index := index }
  else
    { c.execute (List.replicate (c.current_index - index) '<') with current_index := index }

/-- Python `Compiler.allocate`: if `gaps` is non-empty return `gaps[0]`
(the source does not remove it); else return `non_allocated` and increment
it. -/
def allocate (c : Compiler) : Nat × Compiler :=
  match c.gaps with
  | g :: _ => (g, c)
  | [] => (c.non_allocated, { c with non_allocated := c.non_allocated + 1 })

/-- Python `Compiler.free_cell`: shrink the high-water mark when the freed
index is the last allocated one, else append it to `gaps`. -/
def free_cell (c : Compiler) (index : Nat) : Compiler :=
  if index + 1 = c.non_allocated then { c with non_allocated := c.non_allocated - 1 }
  else { c with gaps := c.gaps ++ [index] }

/-- Python `Compiler.loop` (a contextmanager): save the head, emit `[`,
run the body, emit `]`, and raise "unbalanced loop" when the head moved.
If the body itself raises, the exception propagates before `]` is emitted,
exactly as in the Python contextmanager. -/
def loop (c : Compiler) (body : Compiler → Except String Compiler) :
    Except String Compiler := do
  let save := c.current_index
  let c1 ← body (c.execute ['['])
  let c2 := c1.execute [']']
  if save ≠ c2.current_index then Except.error "unbalanced loop" else Except.ok c2

/-- Python `Compiler.move_cell`: go to `source`, loop { `-` ; for each
target: goto it and emit `+` `multiplier` times; goto `source` }. -/
def move_cell (c : Compiler) (source : Nat) (targets : List Nat) (multiplier : Nat) :
    Except String Compiler :=
  (c.goto source).loop (fun c0 =>
    Except.ok ((targets.foldl
      (fun acc target => (acc.goto target).execute (List.replicate multiplier '+'))
      (c0.execute ['-'])).goto source))

end Compiler

/-- The emitted character sequence: the concatenation of every chunk, in
order (Python `compiler.program` joined). -/
def output (c : Compiler) : List Char := c.program.flatten

/-- Python `Byte.copy` (named here `Compiler.copy`): allocate `a1` and
`a2`, drain the owned cell into both, restore it from `a2`, free `a2`,
and hand back the cell `a1` that the fresh Byte owns.  The source's final
`Byte(self.compiler, a1)` omits the `pointer` argument and raises
`TypeError` (see claim C8); this embedding returns the index `a1` the
intended construction would own, so the emission and bookkeeping of the
method can be reasoned about. -/
def Compiler.copy (c : Compiler) (pointer : Nat) : Except String (Nat × Compiler) := do
  let (a1, c1) := c.allocate
  let (a2, c2) := c1.allocate
  let c3 ← c2.move_cell pointer [a1, a2] 1
  let c4 ← c3.move_cell a2 [pointer] 1
  Except.ok (a1, c4.free_cell a2)

/-- Intrinsic `= (byte, byte)` (Python `assign`): zero the destination
`x` with `[-]`, then `move_cell` from `y` to `x`.  The source frees
nothing. -/
def assign (c : Compiler) (x y : Nat) : Except String Compiler :=
  ((c.goto x).execute ['[', '-', ']']).move_cell y [x] 1

/-- Intrinsic `= (byte, vint)` (Python `assign_virtual`): zero `x`, then
emit `+` `v` times. -/
def assign_virtual (c : Compiler) (x : Nat) (v : Nat) : Compiler :=
  ((c.goto x).execute ['[', '-', ']']).execute (List.replicate v '+')

/-- Intrinsic `++ (byte)` (Python `succ`): emit `+` at `x`; result is `x`. -/
def succ (c : Compiler) (x : Nat) : Compiler :=
  (c.goto x).execute ['+']

/-- Intrinsic `-- (byte)` (Python `pred`): emit `-` at `x`; result is `x`. -/
def pred (c : Compiler) (x : Nat) : Compiler :=
  (c.goto x).execute ['-']

/-- Intrinsic `+= (byte, byte)` (Python `iadd`): `move_cell` from `y` to
`x`, then free `y`; result is `x`. -/
def iadd (c : Compiler) (x y : Nat) : Except String Compiler := do
  let c1 ← c.move_cell y [x] 1
  Except.ok (c1.free_cell y)

/-- Intrinsic `+= (byte, vint)` (Python `iadd_virtual`): emit `+` `v`
times at `x`; result is `x`. -/
def iadd_virtual (c : Compiler) (x : Nat) (v : Nat) : Compiler :=
  (c.goto x).execute (List.replicate v '+')

/-- Intrinsic `-= (byte, vint)` (Python `isub_virtual`): emit `-` `v`
times at `x`; result is `x`. -/
def isub_virtual (c : Compiler) (x : Nat) (v : Nat) : Compiler :=
  (c.goto x).execute (List.replicate v '-')

/-- Modelled from the spec: the intended `-= (byte, byte)` intrinsic of
section 4.4 ("loop at y: `-` once, go to x emit `-`, return to y; free
y").  The Python `isub` references the undefined name `self` (and passes
the Byte object instead of its cell index to `goto`), so calling it
raises `NameError`; this definition follows the spec's words. -/
def isub_intended (c : Compiler) (x y : Nat) : Except String Compiler := do
  let c1 ← (c.goto y).loop (fun c0 =>
    Except.ok ((((c0.execute ['-']).goto x).execute ['-']).goto y))
  Except.ok (c1.free_cell y)

/-- Intrinsic `*= (byte, byte)` (Python `imul`): copy `x` to `xp`, zero
`x`, then loop at `y` { `-`; copy `xp` to `xpp`; `move_cell xpp [x]`;
free `xpp`; goto `y` }; free `y`; result is `x`.  (The source never frees
`xp`.) -/
def imul (c : Compiler) (x y : Nat) : Except String Compiler := do
  let (xp, c1) ← c.copy x
  let c2 := ((c1.goto x).execute ['[', '-', ']'])
  let c3 ← (c2.goto y).loop (fun c0 => do
    let (xpp, c4) ← (c0.execute ['-']).copy xp
    let c5 ← c4.move_cell xpp [x] 1
    Except.ok ((c5.free_cell xpp).goto y))
  Except.ok (c3.free_cell y)

/-- Intrinsic `*= (byte, vint)` (Python `imul_virtual`): allocate a fresh
byte `xp`, `move_cell x [xp]` with multiplier `v`, then `move_cell xp
[x]`; result is `x`.  (The source never frees `xp`.) -/
def imul_virtual (c : Compiler) (x : Nat) (v : Nat) : Except String Compiler := do
  let (xp, c1) := c.allocate
  let c2 ← c1.move_cell x [xp] v
  let c3 ← c2.move_cell xp [x] 1
  Except.ok c3

/-- Intrinsic `! (byte)` (Python `nnot`): allocate `y`, emit `[-]+` at
it, then loop at `x` { `[-]`; goto `y`; `-`; goto `x` }; result is the
pair (`y`, final state).  The operand `x` is not freed. -/
def nnot (c : Compiler) (x : Nat) : Except String (Nat × Compiler) := do
  let (y, c1) := c.allocate
  let c2 := (c1.goto y).execute ['[', '-', ']', '+']
  let c3 ← (c2.goto x).loop (fun c0 =>
    Except.ok ((((c0.execute ['[', '-', ']']).goto y).execute ['-']).goto x))
  Except.ok (y, c3)

/-- Intrinsic `== (byte, byte)` (Python `eq`): subtract `y` from `x`
destructively, allocate `z` set to 1, then loop at `x` { `[-]`; goto `z`;
`-`; goto `x` }; free `x` and `y`; result is `z`. -/
def eq (c : Compiler) (x y : Nat) : Except String (Nat × Compiler) := do
  let c1 ← (c.goto y).loop (fun c0 =>
    Except.ok ((((c0.execute ['-']).goto x).execute ['-']).goto y))
  let (z, c2) := c1.allocate
  let c3 := (c2.goto z).execute ['[', '-', ']', '+']
  let c4 ← (c3.goto x).loop (fun c0 =>
    Except.ok ((((c0.execute ['[', '-', ']']).goto z).execute ['-']).goto x))
  Except.ok (z, (c4.free_cell x).free_cell y)

/-- Intrinsic `read ()` (Python `read`): allocate a cell, goto it, emit
`,`; result is the fresh byte's cell. -/
def read (c : Compiler) : Nat × Compiler :=
  let (x, c1) := c.allocate
  (x, (c1.goto x).execute [','])

/-- Intrinsic `write (byte)` (Python `write`): goto `x` and emit `.`. -/
def write (c : Compiler) (x : Nat) : Compiler :=
  (c.goto x).execute ['.']

/-- Target-machine instructions (spec section 6): the eight characters,
with the bracket loop structured. -/
inductive Instr where
  | plus : Instr
  | minus : Instr
  | left : Instr
  | right : Instr
  | dot : Instr
  | comma : Instr
  | loop : List Instr → Instr

/-- Target-machine state: a byte tape (cells wrap modulo 256), the head,
the remaining input and the output so far. -/
@[ext]
structure TapeState where
  tape : Int → ZMod 256
  head : Int
  input : List (ZMod 256)
  output : List (ZMod 256)

/-- Pointwise tape update. -/
def upd (t : Int → ZMod 256) (i : Int) (v : ZMod 256) : Int → ZMod 256 :=
  fun j => if j = i then v else t j

mutual

/-- Run one instruction.  `fuel` bounds the number of loop iterations;
`none` means the fuel ran out (or input was exhausted at `,`). -/
def execI : Nat → Instr → TapeState → Option TapeState
  | _, Instr.plus, s => some { s with tape := upd s.tape s.head (s.tape s.head + 1) }
  | _, Instr.minus, s => some { s with tape := upd s.tape s.head (s.tape s.head - 1) }
  | _, Instr.left, s => some { s with head := s.head - 1 }
  | _, Instr.right, s => some { s with head := s.head + 1 }
  | _, Instr.dot, s => some { s with output := s.output ++ [s.tape s.head] }
  | _, Instr.comma, s =>
    match s.input with
    | [] => none
    | v :: rest => some { s with tape := upd s.tape s.head v, input := rest }
  | fuel, Instr.loop body, s =>
    if s.tape s.head = 0 then some s
    else
      match fuel with
      | 0 => none
      | f + 1 => (execL (f + 1) body s).bind (execI f (Instr.loop body))
termination_by fuel i _ => (fuel, sizeOf i)

/-- Run a sequence of instructions. -/
def execL : Nat → List Instr → TapeState → Option TapeState
  | _, [], s => some s
  | fuel, i :: rest, s => (execI fuel i s).bind (execL fuel rest)
termination_by fuel l _ => (fuel, sizeOf l)

end

mutual

/-- Flatten one structured instruction to its character sequence. -/
def flatI : Instr → List Char
  | Instr.plus => ['+']
  | Instr.minus => ['-']
  | Instr.left => ['<']
  | Instr.right => ['>']
  | Instr.dot => ['.']
  | Instr.comma => [',']
  | Instr.loop body => '[' :: flatL body ++ [']']

/-- Flatten a structured program to its character sequence. -/
def flatL : List Instr → List Char
  | [] => []
  | i :: rest => flatI i ++ flatL rest

end

/-- The structured instruction a plain (non-bracket) character stands for. -/
def charInstr (c : Char) : Option Instr :=
  if c = '+' then some Instr.plus
  else if c = '-' then some Instr.minus
  else if c = '<' then some Instr.left
  else if c = '>' then some Instr.right
  else if c = '.' then some Instr.dot
  else if c = ',' then some Instr.comma
  else none

/-- Bracket-matching parser: `stack` holds the reversed instruction lists
of the enclosing unfinished loops, `acc` the reversed instructions of the
current level. -/
def parseAux : List Char → List (List Instr) → List Instr → Option (List Instr)
  | [], [], acc => some acc.reverse
  | [], _ :: _, _ => none
  | c :: rest, stack, acc =>
    if c = '[' then parseAux rest (acc :: stack) []
    else if c = ']' then
      match stack with
      | [] => none
      | top :: stack2 => parseAux rest stack2 (Instr.loop acc.reverse :: top)
    else
      match charInstr c with
      | some i => parseAux rest stack (i :: acc)
      | none => none

/-- Parse a flat character sequence into a structured program; `none` on
unmatched brackets or foreign characters. -/
def parse (l : List Char) : Option (List Instr) := parseAux l [] []

/-- Simulate a flat character sequence: parse it and run it with the
given fuel. -/
def runBF (fuel : Nat) (code : List Char) (s : TapeState) : Option TapeState :=
  (parse code).bind (fun p => execL fuel p s)

/-- The Python objects that take part in type equality: the four type
classes of the source (`ByteType`, `ListType`, `VirtualIntegerType`,
`VirtualListType`) and instances of the value classes (whose classes
define no custom equality). -/
inductive PyObj where
  | byteType : PyObj
  | listType : PyObj → PyObj
  | virtualIntegerType : PyObj
  | virtualListType : PyObj
  | byteObj : PyObj
  | virtualIntegerObj : PyObj
  | virtualListObj : PyObj
deriving DecidableEq

/-- Python `==` over these objects, mirroring each class's `__eq__`:
`ByteType.__eq__` is `isinstance(other, ByteType)`; `ListType.__eq__`
compares element types recursively; `VirtualIntegerType.__eq__` is
`type(other) == VirtualInteger` — the VALUE class, so it holds exactly of
`VirtualInteger` instances; `VirtualListType.__eq__` is `type(other) ==
VirtualListType`.  Classes without a custom `__eq__` fall back to
identity. -/
def pyEq : PyObj → PyObj → Bool
  | PyObj.byteType, o =>
    match o with
    | PyObj.byteType => true
    | _ => false
  | PyObj.listType e, o =>
    match o with
    | PyObj.listType e2 => pyEq e e2
    | _ => false
  | PyObj.virtualIntegerType, o =>
    match o with
    | PyObj.virtualIntegerObj => true
    | _ => false
  | PyObj.virtualListType, o =>
    match o with
    | PyObj.virtualListType => true
    | _ => false
  | x, o => x = o

/-- The characters `goto` emits when moving from head `a` to head `b`. -/
def gotoChars (a b : Nat) : List Char :=
  if a < b then List.replicate (b - a) '>' else List.replicate (a - b) '<'

/-- The structured form of a `goto` move from head `a` to head `b`. -/
def gotoI (a b : Nat) : List Instr :=
  if a < b then List.replicate (b - a) Instr.right
  else List.replicate (a - b) Instr.left

/-- The structured instructions of `move_cell`'s loop body after the
initial `-`: starting at head `pos`, visit each target and emit `+`
`m` times. -/
def moveSeq (m : Nat) : Nat → List Nat → List Instr
  | _, [] => []
  | pos, t :: rest => gotoI pos t ++ List.replicate m Instr.plus ++ moveSeq m t rest

/-- The head position after visiting the targets in order. -/
def lastPos (pos : Nat) : List Nat → Nat
  | [] => pos
  | t :: rest => lastPos t rest

/-- The structured loop `move_cell src targets m` emits once the head is
at `src`. -/
def moveLoop (src : Nat) (ts : List Nat) (m : Nat) : Instr :=
  Instr.loop (Instr.minus :: (moveSeq m src ts ++ gotoI (lastPos src ts) src))

/-- The structured subtraction loop emitted at `y`: `-` once, go to `x`,
`-` once, return to `y` (the body of `-= (byte, byte)` and of the first
phase of `== (byte, byte)`). -/
def subLoopI (x y : Nat) : Instr :=
  Instr.loop (Instr.minus :: (gotoI y x ++ Instr.minus :: gotoI x y))

/-- The structured negation loop emitted at `x`: zero `x` with `[-]`, go
to `z`, `-` once, return to `x` (the body of `! (byte)` and of the second
phase of `== (byte, byte)`). -/
def notLoopI (x z : Nat) : Instr :=
  Instr.loop (Instr.loop [Instr.minus] :: (gotoI x z ++ Instr.minus :: gotoI z x))

/-- Bracket depth contribution of one character. -/
def charDepth (c : Char) : Int := if c = '[' then 1 else if c = ']' then -1 else 0

/-- Bracket scanner: `d` is the current nesting depth; `true` when the
depth never drops below zero. -/
def scanOk : List Char → Int → Bool
  | [], _ => true
  | c :: rest, d => decide (0 ≤ d + charDepth c) && scanOk rest (d + charDepth c)

/-- Net bracket depth of a character sequence. -/
def depthOf (l : List Char) : Int := (l.map charDepth).sum

/-- A character sequence is balanced when no prefix closes more loops
than it opened and the whole sequence closes every loop: exactly the
condition under which every `[` has a matching `]` and vice versa. -/
def Balanced (l : List Char) : Prop := scanOk l 0 = true ∧ depthOf l = 0

instance (l : List Char) : Decidable (Balanced l) :=
  inferInstanceAs (Decidable (_ ∧ _))

/-- The step from `c` to `c'` appended a balanced chunk to the output. -/
def EmitsBalanced (c c' : Compiler) : Prop :=
  ∃ d, output c' = output c ++ d ∧ Balanced d

/-- The compiler's initial state (Python `Compiler.__init__`). -/
def compiler0 : Compiler := { program := [], current_index := 0, non_allocated := 0, gaps := [] }

/-- The target machine's initial state: all-zero tape, head at 0, given
input, no output yet. -/
def initState (input : List (ZMod 256)) : TapeState :=
  { tape := fun _ => 0, head := 0, input := input, output := [] }

/-- The code-generation pipeline for the program `byte x; x += A; x *= B;
write(x);`: the declaration allocates a fresh byte cell, each statement
dispatches to the matching intrinsic (`+= (byte, vint)`, `*= (byte,
vint)`, `write (byte)`) exactly as `Code.execute` and
`FunctionCall.evaluate` do. -/
def compileMul (A B : Nat) : Except String Compiler := do
  let (x, c1) := compiler0.allocate
  let c2 := iadd_virtual c1 x A
  let c3 ← imul_virtual c2 x B
  Except.ok (write c3 x)

/-- Net head displacement of a character sequence: the number of `>`
characters minus the number of `<` characters. -/
def hdelta (l : List Char) : Int := (l.count '>' : Int) - (l.count '<' : Int)

/-- Head-prediction invariant: the compiler's recorded head equals the
net displacement of everything emitted so far. -/
def Inv (c : Compiler) : Prop := (c.current_index : Int) = hdelta (output c)

theorem hdelta_append (l1 l2 : List Char) :
    hdelta (l1 ++ l2) = hdelta l1 + hdelta l2 := by
  simp [hdelta, List.count_append]
  ring

theorem hdelta_replicate_gt (n : Nat) : hdelta (List.replicate n '>') = n := by
  simp [hdelta, List.count_replicate]

theorem hdelta_replicate_lt (n : Nat) : hdelta (List.replicate n '<') = -n := by
  simp [hdelta, List.count_replicate]

/-- A chunk with no `<` and no `>` has zero net displacement. -/
theorem hdelta_no_moves (l : List Char) (h1 : '>' ∉ l) (h2 : '<' ∉ l) :
    hdelta l = 0 := by
  simp [hdelta, List.count_eq_zero_of_not_mem h1, List.count_eq_zero_of_not_mem h2]

@[simp] theorem output_execute (c : Compiler) (code : List Char) :
    output (c.execute code) = output c ++ code := by
  simp [output, Compiler.execute]

@[simp] theorem execute_current (c : Compiler) (code : List Char) :
    (c.execute code).current_index = c.current_index := rfl

@[simp] theorem execute_non_allocated (c : Compiler) (code : List Char) :
    (c.execute code).non_allocated = c.non_allocated := rfl

@[simp] theorem execute_gaps (c : Compiler) (code : List Char) :
    (c.execute code).gaps = c.gaps := rfl

@[simp] theorem goto_current (c : Compiler) (k : Nat) :
    (c.goto k).current_index = k := by
  unfold Compiler.goto
  split <;> rfl

@[simp] theorem goto_non_allocated (c : Compiler) (k : Nat) :
    (c.goto k).non_allocated = c.non_allocated := by
  unfold Compiler.goto
  split <;> rfl

@[simp] theorem goto_gaps (c : Compiler) (k : Nat) :
    (c.goto k).gaps = c.gaps := by
  unfold Compiler.goto
  split <;> rfl

@[simp] theorem output_goto (c : Compiler) (k : Nat) :
    output (c.goto k) = output c ++ gotoChars c.current_index k := by
  unfold Compiler.goto gotoChars
  split <;> simp [output, Compiler.execute]

@[simp] theorem free_cell_output (c : Compiler) (i : Nat) :
    output (c.free_cell i) = output c := by
  unfold Compiler.free_cell
  split <;> rfl

@[simp] theorem free_cell_current (c : Compiler) (i : Nat) :
    (c.free_cell i).current_index = c.current_index := by
  unfold Compiler.free_cell
  split <;> rfl

theorem hdelta_gotoChars (a b : Nat) : hdelta (gotoChars a b) = (b : Int) - (a : Int) := by
  unfold gotoChars
  split
  · rw [hdelta_replicate_gt]
    omega
  · rw [hdelta_replicate_lt]
    omega

/-- `goto` preserves the head-prediction invariant. -/
theorem Inv_goto (c : Compiler) (k : Nat) (h : Inv c) : Inv (c.goto k) := by
  unfold Inv at h ⊢
  rw [output_goto, hdelta_append, hdelta_gotoChars, goto_current, ← h]
  ring

/-- `execute` with a movement-free chunk preserves the invariant. -/
theorem Inv_execute (c : Compiler) (code : List Char) (h1 : '>' ∉ code)
    (h2 : '<' ∉ code) (h : Inv c) : Inv (c.execute code) := by
  unfold Inv at h ⊢
  rw [output_execute, hdelta_append, hdelta_no_moves code h1 h2, execute_current, ← h]
  ring

theorem Inv_free_cell (c : Compiler) (i : Nat) (h : Inv c) : Inv (c.free_cell i) := by
  unfold Inv at h ⊢
  rw [free_cell_output, free_cell_current]
  exact h

/-- The scoped `loop` preserves the invariant whenever its body does. -/
theorem Inv_loop (c : Compiler) (body : Compiler → Except String Compiler)
    (c' : Compiler) (hbody : ∀ d d', Inv d → body d = Except.ok d' → Inv d')
    (h : Inv c) (hok : c.loop body = Except.ok c') : Inv c' := by
  unfold Compiler.loop at hok
  cases hb : body (c.execute ['[']) with
  | error e => rw [hb] at hok; simp only [bind, Except.bind] at hok; cases hok
  | ok c1 =>
    rw [hb] at hok
    simp only [bind, Except.bind] at hok
    have h1 : Inv c1 := by
      apply hbody _ _ _ hb
      apply Inv_execute <;> simp [h]
    split at hok
    · cases hok
    · cases hok
      apply Inv_execute <;> simp [h1]

@[simp] theorem allocate_output (c : Compiler) : output (c.allocate).2 = output c := by
  cases h : c.gaps <;> simp [Compiler.allocate, h, output]

@[simp] theorem allocate_current (c : Compiler) :
    (c.allocate).2.current_index = c.current_index := by
  cases h : c.gaps <;> simp [Compiler.allocate, h]

@[simp] theorem allocate_gaps (c : Compiler) : (c.allocate).2.gaps = c.gaps := by
  cases h : c.gaps <;> simp [Compiler.allocate, h]

theorem Inv_allocate (c : Compiler) (h : Inv c) : Inv (c.allocate).2 := by
  unfold Inv at h ⊢
  rw [allocate_output, allocate_current]
  exact h

theorem exceptBind_ok {β γ : Type} (x : Except String β) (f : β → Except String γ)
    (c : γ) : (x >>= f) = Except.ok c ↔ ∃ b, x = Except.ok b ∧ f b = Except.ok c := by
  cases x <;> simp [bind, Except.bind]

/-- When the body succeeds and ends at the entry head, `loop` succeeds
and appends the closing bracket. -/
theorem loop_ok (c : Compiler) (body : Compiler → Except String Compiler) (c1 : Compiler)
    (hb : body (c.execute ['[']) = Except.ok c1)
    (hh : c1.current_index = c.current_index) :
    c.loop body = Except.ok (c1.execute [']']) := by
  unfold Compiler.loop
  rw [hb]
  simp [bind, Except.bind, execute_current, hh]

theorem flatL_append (l1 l2 : List Instr) : flatL (l1 ++ l2) = flatL l1 ++ flatL l2 := by
  induction l1 with
  | nil => simp [flatL]
  | cons i rest ih => simp [flatL, ih]

theorem flatL_replicate_plus (n : Nat) :
    flatL (List.replicate n Instr.plus) = List.replicate n '+' := by
  induction n with
  | zero => simp [flatL]
  | succ n ih => simp [List.replicate_succ, flatL, flatI, ih]

theorem flatL_replicate_minus (n : Nat) :
    flatL (List.replicate n Instr.minus) = List.replicate n '-' := by
  induction n with
  | zero => simp [flatL]
  | succ n ih => simp [List.replicate_succ, flatL, flatI, ih]

theorem flatL_replicate_right (n : Nat) :
    flatL (List.replicate n Instr.right) = List.replicate n '>' := by
  induction n with
  | zero => simp [flatL]
  | succ n ih => simp [List.replicate_succ, flatL, flatI, ih]

theorem flatL_replicate_left (n : Nat) :
    flatL (List.replicate n Instr.left) = List.replicate n '<' := by
  induction n with
  | zero => simp [flatL]
  | succ n ih => simp [List.replicate_succ, flatL, flatI, ih]

theorem flat_gotoI (a b : Nat) : flatL (gotoI a b) = gotoChars a b := by
  unfold gotoI gotoChars
  split <;> simp [flatL_replicate_right, flatL_replicate_left]

theorem move_fold_spec (m : Nat) (ts : List Nat) (c0 : Compiler) :
    (ts.foldl (fun acc t => (acc.goto t).execute (List.replicate m '+')) c0).current_index
        = lastPos c0.current_index ts
    ∧ (ts.foldl (fun acc t => (acc.goto t).execute (List.replicate m '+')) c0).non_allocated
        = c0.non_allocated
    ∧ (ts.foldl (fun acc t => (acc.goto t).execute (List.replicate m '+')) c0).gaps = c0.gaps
    ∧ output (ts.foldl (fun acc t => (acc.goto t).execute (List.replicate m '+')) c0)
        = output c0 ++ flatL (moveSeq m c0.current_index ts) := by
  induction ts generalizing c0 with
  | nil => simp [lastPos, moveSeq, flatL]
  | cons t rest ih =>
    have h := ih ((c0.goto t).execute (List.replicate m '+'))
    simp only [List.foldl_cons]
    refine ⟨?_, ?_, ?_, ?_⟩
    · rw [h.1]; simp [lastPos]
    · rw [h.2.1]; simp
    · rw [h.2.2.1]; simp
    · rw [h.2.2.2]
      simp [moveSeq, flatL_append, flat_gotoI, flatL_replicate_plus, List.append_assoc]

/-- What `move_cell` does to the compiler state: it always succeeds,
ends with the recorded head at `source`, leaves the allocator alone, and
appends exactly the flattening of `gotoI` followed by the structured
`moveLoop`. -/
theorem move_cell_spec (c : Compiler) (src : Nat) (ts : List Nat) (m : Nat) :
    ∃ c', c.move_cell src ts m = Except.ok c'
      ∧ c'.current_index = src
      ∧ c'.non_allocated = c.non_allocated
      ∧ c'.gaps = c.gaps
      ∧ output c' = output c ++ gotoChars c.current_index src
          ++ flatI (moveLoop src ts m) := by
  unfold Compiler.move_cell
  obtain ⟨h1, h2, h3, h4⟩ :=
    move_fold_spec m ts (((c.goto src).execute ['[']).execute ['-'])
  refine ⟨_, loop_ok _ _ _ rfl (by simp), by simp, ?_, ?_, ?_⟩
  · simp [h2]
  · simp [h3]
  · simp only [output_execute, output_goto, h4]
    simp [moveLoop, flatI, flatL, flatL_append, flat_gotoI, h1, List.append_assoc]

theorem Inv_move_fold (m : Nat) (ts : List Nat) (c0 : Compiler) (h : Inv c0) :
    Inv (ts.foldl (fun acc t => (acc.goto t).execute (List.replicate m '+')) c0) := by
  induction ts generalizing c0 with
  | nil => exact h
  | cons t rest ih =>
    simp only [List.foldl_cons]
    apply ih
    apply Inv_execute _ _ (by simp [List.mem_replicate]) (by simp [List.mem_replicate])
    exact Inv_goto _ _ h

theorem Inv_move_cell (c : Compiler) (src : Nat) (ts : List Nat) (m : Nat)
    (c' : Compiler) (h : Inv c) (hok : c.move_cell src ts m = Except.ok c') : Inv c' := by
  unfold Compiler.move_cell at hok
  refine Inv_loop _ _ _ ?_ (Inv_goto c src h) hok
  intro d d' hd hb
  cases hb
  apply Inv_goto
  apply Inv_move_fold
  exact Inv_execute _ _ (by decide) (by decide) hd

theorem Inv_assign (c : Compiler) (x y : Nat) (c' : Compiler) (h : Inv c)
    (hok : assign c x y = Except.ok c') : Inv c' := by
  unfold assign at hok
  exact Inv_move_cell _ _ _ _ _ (Inv_execute _ _ (by decide) (by decide) (Inv_goto c x h)) hok

theorem Inv_assign_virtual (c : Compiler) (x v : Nat) (h : Inv c) :
    Inv (assign_virtual c x v) := by
  unfold assign_virtual
  apply Inv_execute _ _ (by simp [List.mem_replicate]) (by simp [List.mem_replicate])
  exact Inv_execute _ _ (by decide) (by decide) (Inv_goto c x h)

theorem Inv_succ (c : Compiler) (x : Nat) (h : Inv c) : Inv (succ c x) :=
  Inv_execute _ _ (by decide) (by decide) (Inv_goto c x h)

theorem Inv_pred (c : Compiler) (x : Nat) (h : Inv c) : Inv (pred c x) :=
  Inv_execute _ _ (by decide) (by decide) (Inv_goto c x h)

theorem Inv_iadd (c : Compiler) (x y : Nat) (c' : Compiler) (h : Inv c)
    (hok : iadd c x y = Except.ok c') : Inv c' := by
  unfold iadd at hok
  rw [exceptBind_ok] at hok
  obtain ⟨c1, h1, h2⟩ := hok
  cases h2
  exact Inv_free_cell _ _ (Inv_move_cell _ _ _ _ _ h h1)

theorem Inv_iadd_virtual (c : Compiler) (x v : Nat) (h : Inv c) :
    Inv (iadd_virtual c x v) := by
  unfold iadd_virtual
  exact Inv_execute _ _ (by simp [List.mem_replicate]) (by simp [List.mem_replicate])
    (Inv_goto c x h)

theorem Inv_isub_virtual (c : Compiler) (x v : Nat) (h : Inv c) :
    Inv (isub_virtual c x v) := by
  unfold isub_virtual
  exact Inv_execute _ _ (by simp [List.mem_replicate]) (by simp [List.mem_replicate])
    (Inv_goto c x h)

theorem Inv_isub_intended (c : Compiler) (x y : Nat) (c' : Compiler) (h : Inv c)
    (hok : isub_intended c x y = Except.ok c') : Inv c' := by
  unfold isub_intended at hok
  rw [exceptBind_ok] at hok
  obtain ⟨c1, h1, h2⟩ := hok
  cases h2
  apply Inv_free_cell
  refine Inv_loop _ _ _ ?_ (Inv_goto c y h) h1
  intro d d' hd hb
  cases hb
  apply Inv_goto
  apply Inv_execute _ _ (by decide) (by decide)
  apply Inv_goto
  exact Inv_execute _ _ (by decide) (by decide) hd

theorem Inv_copy (c : Compiler) (p : Nat) (r : Nat) (c' : Compiler) (h : Inv c)
    (hok : c.copy p = Except.ok (r, c')) : Inv c' := by
  unfold Compiler.copy at hok
  rcases ha : c.allocate with ⟨a1, c1⟩
  simp only [ha] at hok
  rcases hb : c1.allocate with ⟨a2, c2⟩
  simp only [hb] at hok
  simp only [exceptBind_ok] at hok
  obtain ⟨c3, h3, hok⟩ := hok
  obtain ⟨c4, h4, hok⟩ := hok
  cases hok
  have h1 : Inv c1 := by have := Inv_allocate c h; rwa [ha] at this
  have h2 : Inv c2 := by have := Inv_allocate c1 h1; rwa [hb] at this
  exact Inv_free_cell _ _ (Inv_move_cell _ _ _ _ _ (Inv_move_cell _ _ _ _ _ h2 h3) h4)

theorem Inv_imul (c : Compiler) (x y : Nat) (c' : Compiler) (h : Inv c)
    (hok : imul c x y = Except.ok c') : Inv c' := by
  unfold imul at hok
  simp only [exceptBind_ok] at hok
  obtain ⟨⟨xp, c1⟩, h1, hok⟩ := hok
  obtain ⟨c3, h3, hok⟩ := hok
  cases hok
  apply Inv_free_cell
  have hc1 : Inv c1 := Inv_copy _ _ _ _ h h1
  refine Inv_loop _ _ _ ?_ ?_ h3
  · intro d d' hd hb
    simp only [exceptBind_ok] at hb
    obtain ⟨⟨xpp, c4⟩, h4, hb⟩ := hb
    obtain ⟨c5, h5, hb⟩ := hb
    cases hb
    apply Inv_goto
    apply Inv_free_cell
    exact Inv_move_cell _ _ _ _ _ (Inv_copy _ _ _ _ (Inv_execute _ _ (by decide) (by decide) hd) h4) h5
  · apply Inv_goto
    exact Inv_execute _ _ (by decide) (by decide) (Inv_goto _ x hc1)

theorem Inv_imul_virtual (c : Compiler) (x v : Nat) (c' : Compiler) (h : Inv c)
    (hok : imul_virtual c x v = Except.ok c') : Inv c' := by
  unfold imul_virtual at hok
  rcases ha : c.allocate with ⟨xp, c1⟩
  simp only [ha] at hok
  simp only [exceptBind_ok] at hok
  obtain ⟨c2, h2, hok⟩ := hok
  obtain ⟨c3, h3, hok⟩ := hok
  cases hok
  have h1 : Inv c1 := by have := Inv_allocate c h; rwa [ha] at this
  exact Inv_move_cell _ _ _ _ _ (Inv_move_cell _ _ _ _ _ h1 h2) h3

theorem Inv_nnot (c : Compiler) (x : Nat) (r : Nat) (c' : Compiler) (h : Inv c)
    (hok : nnot c x = Except.ok (r, c')) : Inv c' := by
  unfold nnot at hok
  rcases ha : c.allocate with ⟨y, c1⟩
  simp only [ha] at hok
  simp only [exceptBind_ok] at hok
  obtain ⟨c3, h3, hok⟩ := hok
  cases hok
  have h1 : Inv c1 := by have := Inv_allocate c h; rwa [ha] at this
  refine Inv_loop _ _ _ ?_ ?_ h3
  · intro d d' hd hb
    cases hb
    apply Inv_goto
    apply Inv_execute _ _ (by decide) (by decide)
    apply Inv_goto
    exact Inv_execute _ _ (by decide) (by decide) hd
  · apply Inv_goto
    exact Inv_execute _ _ (by decide) (by decide) (Inv_goto _ _ h1)

theorem Inv_eq_intrinsic (c : Compiler) (x y : Nat) (r : Nat) (c' : Compiler) (h : Inv c)
    (hok : eq c x y = Except.ok (r, c')) : Inv c' := by
  unfold eq at hok
  simp only [exceptBind_ok] at hok
  obtain ⟨c1, h1, hok⟩ := hok
  have hc1 : Inv c1 := by
    refine Inv_loop _ _ _ ?_ (Inv_goto c y h) h1
    intro d d' hd hb
    cases hb
    apply Inv_goto
    apply Inv_execute _ _ (by decide) (by decide)
    apply Inv_goto
    exact Inv_execute _ _ (by decide) (by decide) hd
  rcases ha : c1.allocate with ⟨z, c2⟩
  simp only [ha] at hok
  obtain ⟨c4, h4, hok⟩ := hok
  cases hok
  have hc2 : Inv c2 := by have := Inv_allocate c1 hc1; rwa [ha] at this
  apply Inv_free_cell
  apply Inv_free_cell
  refine Inv_loop _ _ _ ?_ ?_ h4
  · intro d d' hd hb
    cases hb
    apply Inv_goto
    apply Inv_execute _ _ (by decide) (by decide)
    apply Inv_goto
    exact Inv_execute _ _ (by decide) (by decide) hd
  · apply Inv_goto
    exact Inv_execute _ _ (by decide) (by decide) (Inv_goto _ _ hc2)

theorem Inv_read (c : Compiler) (h : Inv c) : Inv (read c).2 := by
  unfold read
  rcases ha : c.allocate with ⟨x, c1⟩
  have h1 : Inv c1 := by have := Inv_allocate c h; rwa [ha] at this
  exact Inv_execute _ _ (by decide) (by decide) (Inv_goto _ x h1)

theorem Inv_write (c : Compiler) (x : Nat) (h : Inv c) : Inv (write c x) :=
  Inv_execute _ _ (by decide) (by decide) (Inv_goto c x h)

/-- C1: head-prediction soundness.  After every emitter operation —
`goto`, `move_cell`, a successful `loop`, and every intrinsic of the
table — the recorded head `current_index` equals the number of `>`
characters minus the number of `<` characters of the output so far (the
invariant `Inv`); in particular, after `goto k` the predicted head is
exactly `k`.  (The intrinsic `-= (byte, byte)` is covered through its
spec-intended emission `isub_intended`, since the source `isub` raises
`NameError` before emitting anything; `*= (byte, byte)` and `Byte.copy`
are covered through the emission model of `copy`.) -/
theorem head_prediction_sound :
    (∀ c k, Inv c → Inv (c.goto k) ∧ (c.goto k).current_index = k)
    ∧ (∀ c src ts m c', Inv c → c.move_cell src ts m = Except.ok c' → Inv c')
    ∧ (∀ c body c', Inv c → (∀ d d', Inv d → body d = Except.ok d' → Inv d') →
        c.loop body = Except.ok c' → Inv c')
    ∧ (∀ c x y c', Inv c → assign c x y = Except.ok c' → Inv c')
    ∧ (∀ c x v, Inv c → Inv (assign_virtual c x v))
    ∧ (∀ c x, Inv c → Inv (succ c x))
    ∧ (∀ c x, Inv c → Inv (pred c x))
    ∧ (∀ c x y c', Inv c → iadd c x y = Except.ok c' → Inv c')
    ∧ (∀ c x v, Inv c → Inv (iadd_virtual c x v))
    ∧ (∀ c x v, Inv c → Inv (isub_virtual c x v))
    ∧ (∀ c x y c', Inv c → isub_intended c x y = Except.ok c' → Inv c')
    ∧ (∀ c p r c', Inv c → c.copy p = Except.ok (r, c') → Inv c')
    ∧ (∀ c x y c', Inv c → imul c x y = Except.ok c' → Inv c')
    ∧ (∀ c x v c', Inv c → imul_virtual c x v = Except.ok c' → Inv c')
    ∧ (∀ c x r c', Inv c → nnot c x = Except.ok (r, c') → Inv c')
    ∧ (∀ c x y r c', Inv c → eq c x y = Except.ok (r, c') → Inv c')
    ∧ (∀ c, Inv c → Inv (read c).2)
    ∧ (∀ c x, Inv c → Inv (write c x)) := by
  refine ⟨?_, ?_, ?_, ?_, ?_, ?_, ?_, ?_, ?_, ?_, ?_, ?_, ?_, ?_, ?_, ?_, ?_, ?_⟩
  · exact fun c k h => ⟨Inv_goto c k h, goto_current c k⟩
  · exact fun c src ts m c' h hok => Inv_move_cell c src ts m c' h hok
  · exact fun c body c' h hb hok => Inv_loop c body c' hb h hok
  · exact fun c x y c' h hok => Inv_assign c x y c' h hok
  · exact fun c x v h => Inv_assign_virtual c x v h
  · exact fun c x h => Inv_succ c x h
  · exact fun c x h => Inv_pred c x h
  · exact fun c x y c' h hok => Inv_iadd c x y c' h hok
  · exact fun c x v h => Inv_iadd_virtual c x v h
  · exact fun c x v h => Inv_isub_virtual c x v h
  · exact fun c x y c' h hok => Inv_isub_intended c x y c' h hok
  · exact fun c p r c' h hok => Inv_copy c p r c' h hok
  · exact fun c x y c' h hok => Inv_imul c x y c' h hok
  · exact fun c x v c' h hok => Inv_imul_virtual c x v c' h hok
  · exact fun c x r c' h hok => Inv_nnot c x r c' h hok
  · exact fun c x y r c' h hok => Inv_eq_intrinsic c x y r c' h hok
  · exact fun c h => Inv_read c h
  · exact fun c x h => Inv_write c x h

theorem depthOf_append (l1 l2 : List Char) :
    depthOf (l1 ++ l2) = depthOf l1 + depthOf l2 := by
  simp [depthOf]

theorem scanOk_append (l1 l2 : List Char) (d : Int) :
    scanOk (l1 ++ l2) d = (scanOk l1 d && scanOk l2 (d + depthOf l1)) := by
  induction l1 generalizing d with
  | nil => simp [scanOk, depthOf]
  | cons ch rest ih =>
    simp only [List.cons_append, scanOk, List.append_eq, ih, Bool.and_assoc]
    have hdep : depthOf (ch :: rest) = charDepth ch + depthOf rest := by simp [depthOf]
    rw [hdep, ← add_assoc]

theorem scanOk_mono (l : List Char) (d d' : Int) (hd : d ≤ d')
    (h : scanOk l d = true) : scanOk l d' = true := by
  induction l generalizing d d' with
  | nil => simp [scanOk]
  | cons ch rest ih =>
    simp only [scanOk, Bool.and_eq_true, decide_eq_true_eq] at h ⊢
    exact ⟨by omega, ih _ _ (by omega) h.2⟩

theorem balanced_nil : Balanced [] := ⟨rfl, rfl⟩

theorem balanced_append (l1 l2 : List Char) (h1 : Balanced l1) (h2 : Balanced l2) :
    Balanced (l1 ++ l2) := by
  obtain ⟨s1, d1⟩ := h1
  obtain ⟨s2, d2⟩ := h2
  refine ⟨?_, ?_⟩
  · rw [scanOk_append, s1, d1]
    simpa using s2
  · rw [depthOf_append, d1, d2]
    ring

/-- A chunk whose characters are all bracket-neutral is balanced. -/
theorem balanced_flat (l : List Char) (h : ∀ ch ∈ l, charDepth ch = 0) : Balanced l := by
  constructor
  · have aux : ∀ (l2 : List Char) (d : Int), (∀ ch ∈ l2, charDepth ch = 0) → 0 ≤ d →
        scanOk l2 d = true := by
      intro l2
      induction l2 with
      | nil => intro d _ _; rfl
      | cons ch rest ih =>
        intro d hmem hd
        have hch : charDepth ch = 0 := hmem ch (by simp)
        simp only [scanOk, hch, add_zero, Bool.and_eq_true, decide_eq_true_eq]
        exact ⟨hd, ih d (fun a ha => hmem a (by simp [ha])) hd⟩
    exact aux l 0 h le_rfl
  · unfold depthOf
    rw [List.sum_eq_zero]
    intro x hx
    obtain ⟨ch, hch, hval⟩ := List.mem_map.mp hx
    rw [← hval]
    exact h ch hch

theorem balanced_wrap (l : List Char) (h : Balanced l) :
    Balanced ('[' :: l ++ [']']) := by
  obtain ⟨hs, hd⟩ := h
  constructor
  · show scanOk ('[' :: (l ++ [']'])) 0 = true
    simp only [scanOk, charDepth, scanOk_append, hd]
    norm_num
    refine ⟨scanOk_mono l 0 1 (by omega) hs, ?_⟩
    simp [scanOk, charDepth]
  · show depthOf ('[' :: (l ++ [']'])) = 0
    simp [depthOf, charDepth] at hd ⊢
    omega

theorem charDepth_gotoChars (a b : Nat) : ∀ ch ∈ gotoChars a b, charDepth ch = 0 := by
  intro ch hch
  unfold gotoChars at hch
  split at hch <;> rw [List.eq_of_mem_replicate hch] <;> rfl

theorem charDepth_moveSeq (m : Nat) (ts : List Nat) (pos : Nat) :
    ∀ ch ∈ flatL (moveSeq m pos ts), charDepth ch = 0 := by
  induction ts generalizing pos with
  | nil => intro ch hch; simp [moveSeq, flatL] at hch
  | cons t rest ih =>
    intro ch hch
    simp only [moveSeq, flatL_append, flatL_replicate_plus, List.mem_append] at hch
    rcases hch with (hch | hch) | hch
    · exact charDepth_gotoChars pos t ch (by rwa [flat_gotoI] at hch)
    · rw [List.eq_of_mem_replicate hch]; rfl
    · exact ih t ch hch

theorem EB_trans (c1 c2 c3 : Compiler) (h1 : EmitsBalanced c1 c2)
    (h2 : EmitsBalanced c2 c3) : EmitsBalanced c1 c3 := by
  obtain ⟨d1, e1, b1⟩ := h1
  obtain ⟨d2, e2, b2⟩ := h2
  exact ⟨d1 ++ d2, by rw [e2, e1, List.append_assoc], balanced_append d1 d2 b1 b2⟩

theorem EB_execute (c : Compiler) (code : List Char) (h : Balanced code) :
    EmitsBalanced c (c.execute code) := ⟨code, by simp, h⟩

theorem EB_goto (c : Compiler) (k : Nat) : EmitsBalanced c (c.goto k) :=
  ⟨gotoChars c.current_index k, by simp,
    balanced_flat _ (charDepth_gotoChars c.current_index k)⟩

theorem EB_allocate (c : Compiler) : EmitsBalanced c (c.allocate).2 :=
  ⟨[], by simp, balanced_nil⟩

theorem EB_free_cell (c : Compiler) (i : Nat) : EmitsBalanced c (c.free_cell i) :=
  ⟨[], by simp, balanced_nil⟩

theorem balanced_moveLoop (src : Nat) (ts : List Nat) (m : Nat) :
    Balanced (flatI (moveLoop src ts m)) := by
  have hflat : flatI (moveLoop src ts m)
      = '[' :: (('-' :: (flatL (moveSeq m src ts) ++ gotoChars (lastPos src ts) src)) ++ [']']) := by
    simp only [moveLoop, flatI, flatL, flatL_append, flat_gotoI, List.cons_append,
      List.nil_append]
  rw [hflat]
  apply balanced_wrap
  apply balanced_flat
  intro ch hch
  rcases List.mem_cons.mp hch with h | h
  · rw [h]; rfl
  · rcases List.mem_append.mp h with h2 | h2
    · exact charDepth_moveSeq m ts src ch h2
    · exact charDepth_gotoChars (lastPos src ts) src ch h2

theorem EB_move_cell (c : Compiler) (src : Nat) (ts : List Nat) (m : Nat)
    (c' : Compiler) (hok : c.move_cell src ts m = Except.ok c') :
    EmitsBalanced c c' := by
  obtain ⟨c2, hok2, _, _, _, hout⟩ := move_cell_spec c src ts m
  rw [hok2] at hok
  cases hok
  refine ⟨gotoChars c.current_index src ++ flatI (moveLoop src ts m), by
    rw [hout, List.append_assoc], ?_⟩
  exact balanced_append _ _ (balanced_flat _ (charDepth_gotoChars _ _))
    (balanced_moveLoop src ts m)

/-- Inversion of a successful `loop`: the body succeeded, the result is
the body's state plus `]`, and the head check passed. -/
theorem loop_ok_inv (c : Compiler) (body : Compiler → Except String Compiler)
    (c' : Compiler) (hok : c.loop body = Except.ok c') :
    ∃ c1, body (c.execute ['[']) = Except.ok c1 ∧ c' = c1.execute [']']
      ∧ c1.current_index = c.current_index := by
  unfold Compiler.loop at hok
  cases hb : body (c.execute ['[']) with
  | error e => rw [hb] at hok; simp only [bind, Except.bind] at hok; cases hok
  | ok c1 =>
    rw [hb] at hok
    simp only [bind, Except.bind] at hok
    split at hok
    · cases hok
    · cases hok
      rename_i hne
      refine ⟨c1, rfl, rfl, ?_⟩
      simp only [execute_current] at hne
      omega

theorem EB_loop (c : Compiler) (body : Compiler → Except String Compiler)
    (c' : Compiler)
    (hbody : ∀ e e', body e = Except.ok e' → EmitsBalanced e e')
    (hok : c.loop body = Except.ok c') :
    ∃ d, output c' = output c ++ ('[' :: d ++ [']']) ∧ Balanced d := by
  obtain ⟨c1, hb, hc', _⟩ := loop_ok_inv c body c' hok
  obtain ⟨d, hd, hbal⟩ := hbody _ _ hb
  refine ⟨d, ?_, hbal⟩
  rw [hc']
  rw [output_execute, hd, output_execute]
  simp

theorem EB_loop_plain (c : Compiler) (body : Compiler → Except String Compiler)
    (c' : Compiler)
    (hbody : ∀ e e', body e = Except.ok e' → EmitsBalanced e e')
    (hok : c.loop body = Except.ok c') : EmitsBalanced c c' := by
  obtain ⟨d, hd, hbal⟩ := EB_loop c body c' hbody hok
  exact ⟨'[' :: d ++ [']'], hd, balanced_wrap d hbal⟩

theorem EB_assign (c : Compiler) (x y : Nat) (c' : Compiler)
    (hok : assign c x y = Except.ok c') : EmitsBalanced c c' := by
  unfold assign at hok
  refine EB_trans _ _ _ (EB_trans _ _ _ (EB_goto c x)
    (EB_execute _ ['[', '-', ']'] (by decide))) ?_
  exact EB_move_cell _ y [x] 1 c' hok

theorem EB_assign_virtual (c : Compiler) (x v : Nat) :
    EmitsBalanced c (assign_virtual c x v) := by
  unfold assign_virtual
  refine EB_trans _ _ _ (EB_trans _ _ _ (EB_goto c x)
    (EB_execute _ ['[', '-', ']'] (by decide))) ?_
  exact EB_execute _ (List.replicate v '+') (balanced_flat _ (by
    intro ch hch
    rw [List.eq_of_mem_replicate hch]
    rfl))

theorem EB_succ (c : Compiler) (x : Nat) : EmitsBalanced c (succ c x) :=
  EB_trans _ _ _ (EB_goto c x) (EB_execute _ ['+'] (by decide))

theorem EB_pred (c : Compiler) (x : Nat) : EmitsBalanced c (pred c x) :=
  EB_trans _ _ _ (EB_goto c x) (EB_execute _ ['-'] (by decide))

theorem EB_iadd (c : Compiler) (x y : Nat) (c' : Compiler)
    (hok : iadd c x y = Except.ok c') : EmitsBalanced c c' := by
  unfold iadd at hok
  rw [exceptBind_ok] at hok
  obtain ⟨c1, h1, h2⟩ := hok
  cases h2
  exact EB_trans _ _ _ (EB_move_cell c y [x] 1 c1 h1) (EB_free_cell c1 y)

theorem EB_iadd_virtual (c : Compiler) (x v : Nat) :
    EmitsBalanced c (iadd_virtual c x v) := by
  unfold iadd_virtual
  refine EB_trans _ _ _ (EB_goto c x)
    (EB_execute _ (List.replicate v '+') (balanced_flat _ ?_))
  intro ch hch
  rw [List.eq_of_mem_replicate hch]
  rfl

theorem EB_isub_virtual (c : Compiler) (x v : Nat) :
    EmitsBalanced c (isub_virtual c x v) := by
  unfold isub_virtual
  refine EB_trans _ _ _ (EB_goto c x)
    (EB_execute _ (List.replicate v '-') (balanced_flat _ ?_))
  intro ch hch
  rw [List.eq_of_mem_replicate hch]
  rfl

theorem EB_isub_intended (c : Compiler) (x y : Nat) (c' : Compiler)
    (hok : isub_intended c x y = Except.ok c') : EmitsBalanced c c' := by
  unfold isub_intended at hok
  rw [exceptBind_ok] at hok
  obtain ⟨c1, h1, h2⟩ := hok
  cases h2
  refine EB_trans _ _ _ (EB_trans _ _ _ (EB_goto c y) ?_) (EB_free_cell c1 y)
  refine EB_loop_plain _ _ _ ?_ h1
  intro e e' hb
  cases hb
  refine EB_trans _ _ _ (EB_execute _ ['-'] (by decide)) ?_
  refine EB_trans _ _ _ (EB_goto _ x) ?_
  exact EB_trans _ _ _ (EB_execute _ ['-'] (by decide)) (EB_goto _ y)

theorem EB_copy (c : Compiler) (p : Nat) (r : Nat) (c' : Compiler)
    (hok : c.copy p = Except.ok (r, c')) : EmitsBalanced c c' := by
  unfold Compiler.copy at hok
  rcases ha : c.allocate with ⟨a1, c1⟩
  simp only [ha] at hok
  rcases hb : c1.allocate with ⟨a2, c2⟩
  simp only [hb] at hok
  simp only [exceptBind_ok] at hok
  obtain ⟨c3, h3, hok⟩ := hok
  obtain ⟨c4, h4, hok⟩ := hok
  cases hok
  have e1 : EmitsBalanced c c1 := by have := EB_allocate c; rwa [ha] at this
  have e2 : EmitsBalanced c1 c2 := by have := EB_allocate c1; rwa [hb] at this
  refine EB_trans _ _ _ (EB_trans _ _ _ e1 e2) ?_
  refine EB_trans _ _ _ (EB_move_cell _ _ _ _ _ h3) ?_
  exact EB_trans _ _ _ (EB_move_cell _ _ _ _ _ h4) (EB_free_cell c4 a2)

theorem EB_imul (c : Compiler) (x y : Nat) (c' : Compiler)
    (hok : imul c x y = Except.ok c') : EmitsBalanced c c' := by
  unfold imul at hok
  simp only [exceptBind_ok] at hok
  obtain ⟨⟨xp, c1⟩, h1, hok⟩ := hok
  obtain ⟨c3, h3, hok⟩ := hok
  cases hok
  refine EB_trans _ _ _ (EB_copy c x xp c1 h1) ?_
  refine EB_trans _ _ _ (EB_trans _ _ _ (EB_goto c1 x)
    (EB_execute _ ['[', '-', ']'] (by decide))) ?_
  refine EB_trans _ _ _ (EB_trans _ _ _ (EB_goto _ y) ?_) (EB_free_cell c3 y)
  refine EB_loop_plain _ _ _ ?_ h3
  intro e e' hb
  simp only [exceptBind_ok] at hb
  obtain ⟨⟨xpp, c4⟩, h4, hb⟩ := hb
  obtain ⟨c5, h5, hb⟩ := hb
  cases hb
  refine EB_trans _ _ _ (EB_execute _ ['-'] (by decide)) ?_
  refine EB_trans _ _ _ (EB_copy _ xp xpp c4 h4) ?_
  refine EB_trans _ _ _ (EB_move_cell _ _ _ _ _ h5) ?_
  exact EB_trans _ _ _ (EB_free_cell c5 xpp) (EB_goto _ y)

theorem EB_imul_virtual (c : Compiler) (x v : Nat) (c' : Compiler)
    (hok : imul_virtual c x v = Except.ok c') : EmitsBalanced c c' := by
  unfold imul_virtual at hok
  rcases ha : c.allocate with ⟨xp, c1⟩
  simp only [ha] at hok
  simp only [exceptBind_ok] at hok
  obtain ⟨c2, h2, hok⟩ := hok
  obtain ⟨c3, h3, hok⟩ := hok
  cases hok
  have e1 : EmitsBalanced c c1 := by have := EB_allocate c; rwa [ha] at this
  exact EB_trans _ _ _ (EB_trans _ _ _ e1 (EB_move_cell _ _ _ _ _ h2))
    (EB_move_cell _ _ _ _ _ h3)

theorem EB_nnot (c : Compiler) (x : Nat) (r : Nat) (c' : Compiler)
    (hok : nnot c x = Except.ok (r, c')) : EmitsBalanced c c' := by
  unfold nnot at hok
  rcases ha : c.allocate with ⟨y, c1⟩
  simp only [ha] at hok
  simp only [exceptBind_ok] at hok
  obtain ⟨c3, h3, hok⟩ := hok
  cases hok
  have e1 : EmitsBalanced c c1 := by have := EB_allocate c; rwa [ha] at this
  have e2 : EmitsBalanced c1 (((c1.goto r).execute ['[', '-', ']', '+']).goto x) :=
    EB_trans _ _ _ (EB_trans _ _ _ (EB_goto c1 r)
      (EB_execute _ ['[', '-', ']', '+'] (by decide))) (EB_goto _ x)
  have e3 : EmitsBalanced (((c1.goto r).execute ['[', '-', ']', '+']).goto x) c' := by
    refine EB_loop_plain _ _ _ ?_ h3
    intro e e' hb
    cases hb
    exact EB_trans _ _ _ (EB_execute _ ['[', '-', ']'] (by decide))
      (EB_trans _ _ _ (EB_goto _ r)
        (EB_trans _ _ _ (EB_execute _ ['-'] (by decide)) (EB_goto _ x)))
  exact EB_trans _ _ _ (EB_trans _ _ _ e1 e2) e3

theorem EB_eq_intrinsic (c : Compiler) (x y : Nat) (r : Nat) (c' : Compiler)
    (hok : eq c x y = Except.ok (r, c')) : EmitsBalanced c c' := by
  unfold eq at hok
  simp only [exceptBind_ok] at hok
  obtain ⟨c1, h1, hok⟩ := hok
  have e1 : EmitsBalanced c c1 := by
    refine EB_trans _ _ _ (EB_goto c y) ?_
    refine EB_loop_plain _ _ _ ?_ h1
    intro e e' hb
    cases hb
    refine EB_trans _ _ _ (EB_execute _ ['-'] (by decide)) ?_
    refine EB_trans _ _ _ (EB_goto _ x) ?_
    exact EB_trans _ _ _ (EB_execute _ ['-'] (by decide)) (EB_goto _ y)
  rcases ha : c1.allocate with ⟨z, c2⟩
  simp only [ha] at hok
  obtain ⟨c4, h4, hok⟩ := hok
  cases hok
  have e2 : EmitsBalanced c1 c2 := by have := EB_allocate c1; rwa [ha] at this
  have e3 : EmitsBalanced c2 (((c2.goto r).execute ['[', '-', ']', '+']).goto x) :=
    EB_trans _ _ _ (EB_trans _ _ _ (EB_goto c2 r)
      (EB_execute _ ['[', '-', ']', '+'] (by decide))) (EB_goto _ x)
  have e4 : EmitsBalanced (((c2.goto r).execute ['[', '-', ']', '+']).goto x) c4 := by
    refine EB_loop_plain _ _ _ ?_ h4
    intro e e' hb
    cases hb
    exact EB_trans _ _ _ (EB_execute _ ['[', '-', ']'] (by decide))
      (EB_trans _ _ _ (EB_goto _ r)
        (EB_trans _ _ _ (EB_execute _ ['-'] (by decide)) (EB_goto _ x)))
  exact EB_trans _ _ _ (EB_trans _ _ _ (EB_trans _ _ _ (EB_trans _ _ _ e1 e2) e3) e4)
    (EB_trans _ _ _ (EB_free_cell c4 x) (EB_free_cell _ y))

theorem EB_read (c : Compiler) : EmitsBalanced c (read c).2 := by
  unfold read
  rcases ha : c.allocate with ⟨x, c1⟩
  have e1 : EmitsBalanced c c1 := by have := EB_allocate c; rwa [ha] at this
  exact EB_trans _ _ _ e1 (EB_trans _ _ _ (EB_goto c1 x)
    (EB_execute _ [','] (by decide)))

theorem EB_write (c : Compiler) (x : Nat) : EmitsBalanced c (write c x) :=
  EB_trans _ _ _ (EB_goto c x) (EB_execute _ ['.'] (by decide))

/-- C4: loop balance and fault.  The scoped `loop` emits `[` on entry and
`]` on exit, so every operation of the emitter and every intrinsic
appends a balanced chunk to the output (hence every `[` in the output of
a successful compilation has a matching `]`), and for a body that
returns, `loop` raises the fatal "unbalanced loop" fault if and only if
the predicted head at scope exit differs from the predicted head at
scope entry. -/
theorem loop_balance_and_fault :
    (∀ (c : Compiler) (body : Compiler → Except String Compiler) (c' : Compiler),
        (∀ e e', body e = Except.ok e' → EmitsBalanced e e') →
        c.loop body = Except.ok c' →
        ∃ d, output c' = output c ++ ('[' :: d ++ [']']) ∧ Balanced d)
    ∧ (∀ (c : Compiler) (body : Compiler → Except String Compiler) (c1 : Compiler),
        body (c.execute ['[']) = Except.ok c1 →
        (c.loop body = Except.error "unbalanced loop"
          ↔ c1.current_index ≠ c.current_index))
    ∧ (∀ c k, EmitsBalanced c (c.goto k))
    ∧ (∀ c src ts m c', c.move_cell src ts m = Except.ok c' → EmitsBalanced c c')
    ∧ (∀ c x y c', assign c x y = Except.ok c' → EmitsBalanced c c')
    ∧ (∀ c x v, EmitsBalanced c (assign_virtual c x v))
    ∧ (∀ c x, EmitsBalanced c (succ c x))
    ∧ (∀ c x, EmitsBalanced c (pred c x))
    ∧ (∀ c x y c', iadd c x y = Except.ok c' → EmitsBalanced c c')
    ∧ (∀ c x v, EmitsBalanced c (iadd_virtual c x v))
    ∧ (∀ c x v, EmitsBalanced c (isub_virtual c x v))
    ∧ (∀ c x y c', isub_intended c x y = Except.ok c' → EmitsBalanced c c')
    ∧ (∀ c p r c', c.copy p = Except.ok (r, c') → EmitsBalanced c c')
    ∧ (∀ c x y c', imul c x y = Except.ok c' → EmitsBalanced c c')
    ∧ (∀ c x v c', imul_virtual c x v = Except.ok c' → EmitsBalanced c c')
    ∧ (∀ c x r c', nnot c x = Except.ok (r, c') → EmitsBalanced c c')
    ∧ (∀ c x y r c', eq c x y = Except.ok (r, c') → EmitsBalanced c c')
    ∧ (∀ c, EmitsBalanced c (read c).2)
    ∧ (∀ c x, EmitsBalanced c (write c x)) := by
  refine ⟨?_, ?_, ?_, ?_, ?_, ?_, ?_, ?_, ?_, ?_, ?_, ?_, ?_, ?_, ?_, ?_, ?_, ?_, ?_⟩
  · exact fun c body c' hb hok => EB_loop c body c' hb hok
  · intro c body c1 hb
    unfold Compiler.loop
    rw [hb]
    simp only [bind, Except.bind, execute_current]
    by_cases h : c.current_index = c1.current_index
    · rw [if_neg (by omega)]
      constructor
      · intro hcon; cases hcon
      · intro hne; omega
    · rw [if_pos (by omega)]
      constructor
      · intro _; omega
      · intro _; rfl
  · exact fun c k => EB_goto c k
  · exact fun c src ts m c' hok => EB_move_cell c src ts m c' hok
  · exact fun c x y c' hok => EB_assign c x y c' hok
  · exact fun c x v => EB_assign_virtual c x v
  · exact fun c x => EB_succ c x
  · exact fun c x => EB_pred c x
  · exact fun c x y c' hok => EB_iadd c x y c' hok
  · exact fun c x v => EB_iadd_virtual c x v
  · exact fun c x v => EB_isub_virtual c x v
  · exact fun c x y c' hok => EB_isub_intended c x y c' hok
  · exact fun c p r c' hok => EB_copy c p r c' hok
  · exact fun c x y c' hok => EB_imul c x y c' hok
  · exact fun c x v c' hok => EB_imul_virtual c x v c' hok
  · exact fun c x r c' hok => EB_nnot c x r c' hok
  · exact fun c x y r c' hok => EB_eq_intrinsic c x y r c' hok
  · exact fun c => EB_read c
  · exact fun c x => EB_write c x

theorem execI_loop_zero (f : Nat) (body : List Instr) (s : TapeState)
    (h : s.tape s.head = 0) : execI f (Instr.loop body) s = some s := by
  rw [execI.eq_def]
  cases f <;> simp [h]

theorem execI_loop_succ (f : Nat) (body : List Instr) (s : TapeState)
    (h : ¬ s.tape s.head = 0) :
    execI (f + 1) (Instr.loop body) s
      = (execL (f + 1) body s).bind (execI f (Instr.loop body)) := by
  rw [execI.eq_def]
  simp [h]

theorem execL_append (f : Nat) (l1 l2 : List Instr) (s : TapeState) :
    execL f (l1 ++ l2) s = (execL f l1 s).bind (execL f l2) := by
  induction l1 generalizing s with
  | nil => simp [execL]
  | cons i rest ih =>
    simp only [List.cons_append, execL]
    cases hi : execI f i s with
    | none => simp
    | some s1 => simp [ih]

theorem upd_same (t : Int → ZMod 256) (i : Int) (v : ZMod 256) : upd t i v i = v := by
  simp [upd]

theorem upd_other (t : Int → ZMod 256) (i : Int) (v : ZMod 256) (j : Int) (h : j ≠ i) :
    upd t i v j = t j := by
  simp [upd, h]

theorem upd_upd (t : Int → ZMod 256) (i : Int) (v w : ZMod 256) :
    upd (upd t i v) i w = upd t i w := by
  funext j
  by_cases h : j = i <;> simp [upd, h]

theorem upd_self (t : Int → ZMod 256) (i : Int) : upd t i (t i) = t := by
  funext j
  by_cases h : j = i <;> simp [upd, h]

theorem exec_right (f n : Nat) (t : Int → ZMod 256) (hd : Int)
    (inp out : List (ZMod 256)) :
    execL f (List.replicate n Instr.right) ⟨t, hd, inp, out⟩
      = some ⟨t, hd + n, inp, out⟩ := by
  induction n generalizing hd with
  | zero => simp [execL]
  | succ n ih =>
    rw [List.replicate_succ]
    simp only [execL, execI, Option.some_bind]
    rw [ih]
    have h2 : hd + 1 + (n : Int) = hd + ((n + 1 : Nat) : Int) := by push_cast; ring
    rw [h2]

theorem exec_left (f n : Nat) (t : Int → ZMod 256) (hd : Int)
    (inp out : List (ZMod 256)) :
    execL f (List.replicate n Instr.left) ⟨t, hd, inp, out⟩
      = some ⟨t, hd - n, inp, out⟩ := by
  induction n generalizing hd with
  | zero => simp [execL]
  | succ n ih =>
    rw [List.replicate_succ]
    simp only [execL, execI, Option.some_bind]
    rw [ih]
    have h2 : hd - 1 - (n : Int) = hd - ((n + 1 : Nat) : Int) := by push_cast; ring
    rw [h2]

theorem exec_plus (f n : Nat) (t : Int → ZMod 256) (hd : Int)
    (inp out : List (ZMod 256)) :
    execL f (List.replicate n Instr.plus) ⟨t, hd, inp, out⟩
      = some ⟨upd t hd (t hd + n), hd, inp, out⟩ := by
  induction n generalizing t with
  | zero => simp [execL, upd_self]
  | succ n ih =>
    rw [List.replicate_succ]
    simp only [execL, execI, Option.some_bind]
    rw [ih, upd_same, upd_upd]
    have h2 : t hd + 1 + (n : ZMod 256) = t hd + ((n + 1 : Nat) : ZMod 256) := by
      push_cast; ring
    rw [h2]

theorem exec_minus (f n : Nat) (t : Int → ZMod 256) (hd : Int)
    (inp out : List (ZMod 256)) :
    execL f (List.replicate n Instr.minus) ⟨t, hd, inp, out⟩
      = some ⟨upd t hd (t hd - n), hd, inp, out⟩ := by
  induction n generalizing t with
  | zero => simp [execL, upd_self]
  | succ n ih =>
    rw [List.replicate_succ]
    simp only [execL, execI, Option.some_bind]
    rw [ih, upd_same, upd_upd]
    have h2 : t hd - 1 - (n : ZMod 256) = t hd - ((n + 1 : Nat) : ZMod 256) := by
      push_cast; ring
    rw [h2]

theorem exec_gotoI (f : Nat) (a b : Nat) (t : Int → ZMod 256) (hd : Int)
    (inp out : List (ZMod 256)) (hh : hd = (a : Int)) :
    execL f (gotoI a b) ⟨t, hd, inp, out⟩ = some ⟨t, (b : Int), inp, out⟩ := by
  subst hh
  unfold gotoI
  split
  · rw [exec_right]
    have h2 : (a : Int) + ((b - a : Nat) : Int) = (b : Int) := by omega
    rw [h2]
  · rw [exec_left]
    have h2 : (a : Int) - ((a - b : Nat) : Int) = (b : Int) := by omega
    rw [h2]

theorem val_pred (x : ZMod 256) (k : Nat) (hk : x.val = k + 1) : (x - 1).val = k := by
  have hlt : k + 1 < 256 := by rw [← hk]; exact ZMod.val_lt x
  have hx : x = ((k + 1 : Nat) : ZMod 256) := by rw [← hk, ZMod.natCast_zmod_val]
  rw [hx]
  have h2 : ((k + 1 : Nat) : ZMod 256) - 1 = ((k : Nat) : ZMod 256) := by push_cast; ring
  rw [h2]
  exact ZMod.val_cast_of_lt (by omega)

/-- The zeroing loop `[-]`: with enough fuel it zeroes the cell under
the head and changes nothing else. -/
theorem exec_zeroLoop (k f : Nat) (s : TapeState) (hk : (s.tape s.head).val = k)
    (hf : k ≤ f) :
    execI f (Instr.loop [Instr.minus]) s
      = some { s with tape := upd s.tape s.head 0 } := by
  induction k generalizing s f with
  | zero =>
    have h0 : s.tape s.head = 0 := (ZMod.val_eq_zero _).mp hk
    rw [execI_loop_zero f _ s h0]
    obtain ⟨t, hd, inp, out⟩ := s
    simp only at h0
    congr 2
    rw [← h0, upd_self]
  | succ k ih =>
    obtain ⟨t, hd, inp, out⟩ := s
    simp only at hk
    have hne : ¬ (⟨t, hd, inp, out⟩ : TapeState).tape (⟨t, hd, inp, out⟩ : TapeState).head = 0 := by
      intro h
      simp only at h
      rw [h, ZMod.val_zero] at hk
      omega
    obtain ⟨f2, rfl⟩ : ∃ f2, f = f2 + 1 := ⟨f - 1, by omega⟩
    rw [execI_loop_succ f2 [Instr.minus] _ hne]
    have hminus := exec_minus (f2 + 1) 1 t hd inp out
    rw [show List.replicate 1 Instr.minus = [Instr.minus] from rfl, Nat.cast_one] at hminus
    rw [hminus]
    simp only [Option.some_bind]
    have hval : ((⟨upd t hd (t hd - 1), hd, inp, out⟩ : TapeState).tape
        (⟨upd t hd (t hd - 1), hd, inp, out⟩ : TapeState).head).val = k := by
      simp only
      rw [upd_same]
      exact val_pred (t hd) k hk
    rw [ih f2 ⟨upd t hd (t hd - 1), hd, inp, out⟩ hval (by omega)]
    simp only
    rw [upd_upd]

/-- Effect of the loop body's visiting sequence: starting at `pos`, each
target gains `m` (once per occurrence) and the head ends at the last
target. -/
theorem exec_moveSeq (m : Nat) (ts : List Nat) (pos : Nat) (f : Nat)
    (t : Int → ZMod 256) (inp out : List (ZMod 256)) :
    execL f (moveSeq m pos ts) ⟨t, (pos : Int), inp, out⟩
      = some ⟨fun i => t i
            + (m : ZMod 256) * (((ts.map (fun u : Nat => (u : Int))).count i : Nat) : ZMod 256),
          (lastPos pos ts : Int), inp, out⟩ := by
  induction ts generalizing pos t with
  | nil =>
    have hu : moveSeq m pos ([] : List Nat) = [] := by simp only [moveSeq]
    rw [hu]
    simp only [execL]
    refine congrArg some ?_
    simp only [TapeState.mk.injEq, and_true, true_and]
    refine ⟨?_, by simp only [lastPos]⟩
    funext i
    simp
  | cons u rest ih =>
    have hu : moveSeq m pos (u :: rest)
        = gotoI pos u ++ (List.replicate m Instr.plus ++ moveSeq m u rest) := by
      simp only [moveSeq, List.append_assoc]
    rw [hu]
    rw [execL_append, exec_gotoI f pos u t (pos : Int) inp out rfl]
    simp only [Option.some_bind]
    rw [execL_append, exec_plus f m t (u : Int) inp out]
    simp only [Option.some_bind]
    rw [ih u (upd t (u : Int) (t (u : Int) + (m : ZMod 256)))]
    refine congrArg some ?_
    simp only [TapeState.mk.injEq, and_true, true_and]
    refine ⟨?_, by simp only [lastPos]⟩
    funext i
    by_cases hi : i = (u : Int)
    · subst hi
      rw [upd_same]
      simp only [List.map_cons, List.count_cons, beq_self_eq_true, if_true]
      push_cast
      ring
    · rw [upd_other _ _ _ _ hi]
      have hne2 : (((u : Nat) : Int) == i) = false := by
        rw [beq_eq_false_iff_ne]
        exact fun h => hi h.symm
      simp only [List.map_cons, List.count_cons, hne2, if_false]
      push_cast
      ring

/-- The `move_cell` loop drains the source cell: with enough fuel, the
source ends at zero, every other cell gains `m × initial(src)` per
occurrence among the targets, and the head is back at the source. -/
theorem exec_moveLoop (src : Nat) (ts : List Nat) (m : Nat) (k f : Nat)
    (t : Int → ZMod 256) (inp out : List (ZMod 256))
    (hk : (t (src : Int)).val = k) (hf : k ≤ f)
    (hsrc : (src : Int) ∉ ts.map (fun u : Nat => (u : Int))) :
    execI f (moveLoop src ts m) ⟨t, (src : Int), inp, out⟩
      = some ⟨fun i => if i = (src : Int) then 0
            else t i + (m : ZMod 256) * (k : ZMod 256)
              * (((ts.map (fun u : Nat => (u : Int))).count i : Nat) : ZMod 256),
          (src : Int), inp, out⟩ := by
  induction k generalizing t f with
  | zero =>
    have h0 : t (src : Int) = 0 := (ZMod.val_eq_zero _).mp hk
    have hz : execI f (moveLoop src ts m) ⟨t, (src : Int), inp, out⟩
        = some ⟨t, (src : Int), inp, out⟩ := execI_loop_zero f _ _ h0
    rw [hz]
    refine congrArg some ?_
    simp only [TapeState.mk.injEq, and_true, true_and]
    funext i
    by_cases hi : i = (src : Int) <;> simp [hi, h0]
  | succ k ih =>
    have hne : ¬ ((⟨t, (src : Int), inp, out⟩ : TapeState).tape
        (⟨t, (src : Int), inp, out⟩ : TapeState).head) = 0 := by
      intro h
      simp only at h
      rw [h, ZMod.val_zero] at hk
      omega
    obtain ⟨f2, rfl⟩ : ∃ f2, f = f2 + 1 := ⟨f - 1, by omega⟩
    have hstep : execI (f2 + 1) (moveLoop src ts m) ⟨t, (src : Int), inp, out⟩
        = (execL (f2 + 1) (Instr.minus :: (moveSeq m src ts ++ gotoI (lastPos src ts) src))
            ⟨t, (src : Int), inp, out⟩).bind (execI f2 (moveLoop src ts m)) :=
      execI_loop_succ f2 _ _ hne
    rw [hstep]
    simp only [execL, execI, Option.some_bind]
    rw [execL_append]
    rw [exec_moveSeq m ts src (f2 + 1) (upd t (src : Int) (t (src : Int) - 1)) inp out]
    simp only [Option.some_bind]
    rw [exec_gotoI (f2 + 1) (lastPos src ts) src _ _ inp out rfl]
    simp only [Option.some_bind]
    have hcount0 : ((ts.map (fun u : Nat => (u : Int))).count ((src : Nat) : Int)) = 0 :=
      List.count_eq_zero.mpr hsrc
    have hval : ((fun i => upd t (src : Int) (t (src : Int) - 1) i
          + (m : ZMod 256) * (((ts.map (fun u : Nat => (u : Int))).count i : Nat) : ZMod 256))
          ((src : Nat) : Int)).val = k := by
      simp only [upd_same, hcount0]
      have h2 : t (src : Int) - 1 + (m : ZMod 256) * ((0 : Nat) : ZMod 256)
          = t (src : Int) - 1 := by push_cast; ring
      rw [h2]
      exact val_pred _ k hk
    rw [ih f2 _ hval (by omega)]
    refine congrArg some ?_
    simp only [TapeState.mk.injEq, and_true, true_and]
    funext i
    by_cases hi : i = (src : Int)
    · simp [hi]
    · simp only [if_neg hi, upd_other _ _ _ _ hi]
      push_cast
      ring

theorem parseAux_plain (ch : Char) (i : Instr) (l : List Char)
    (stack : List (List Instr)) (acc : List Instr)
    (h1 : ¬ ch = '[') (h2 : ¬ ch = ']') (h3 : charInstr ch = some i) :
    parseAux (ch :: l) stack acc = parseAux l stack (i :: acc) := by
  simp [parseAux, h1, h2, h3]

theorem parseAux_open (l : List Char) (stack : List (List Instr)) (acc : List Instr) :
    parseAux ('[' :: l) stack acc = parseAux l (acc :: stack) [] := by
  simp [parseAux]

theorem parseAux_close (l : List Char) (top : List Instr) (st : List (List Instr))
    (acc : List Instr) :
    parseAux (']' :: l) (top :: st) acc = parseAux l st (Instr.loop acc.reverse :: top) := by
  simp [parseAux]

/-- The parser inverts flattening, at every stack and accumulator. -/
theorem parseAux_flat (p : List Instr) (r : List Char) (stack : List (List Instr))
    (acc : List Instr) :
    parseAux (flatL p ++ r) stack acc = parseAux r stack (p.reverse ++ acc) := by
  match p with
  | [] => simp [flatL]
  | Instr.plus :: rest =>
    have hf : flatL (Instr.plus :: rest) = '+' :: flatL rest := by simp [flatL, flatI]
    rw [hf, List.cons_append,
      parseAux_plain '+' Instr.plus _ _ _ (by decide) (by decide) rfl,
      parseAux_flat rest r stack (Instr.plus :: acc)]
    simp
  | Instr.minus :: rest =>
    have hf : flatL (Instr.minus :: rest) = '-' :: flatL rest := by simp [flatL, flatI]
    rw [hf, List.cons_append,
      parseAux_plain '-' Instr.minus _ _ _ (by decide) (by decide) rfl,
      parseAux_flat rest r stack (Instr.minus :: acc)]
    simp
  | Instr.left :: rest =>
    have hf : flatL (Instr.left :: rest) = '<' :: flatL rest := by simp [flatL, flatI]
    rw [hf, List.cons_append,
      parseAux_plain '<' Instr.left _ _ _ (by decide) (by decide) rfl,
      parseAux_flat rest r stack (Instr.left :: acc)]
    simp
  | Instr.right :: rest =>
    have hf : flatL (Instr.right :: rest) = '>' :: flatL rest := by simp [flatL, flatI]
    rw [hf, List.cons_append,
      parseAux_plain '>' Instr.right _ _ _ (by decide) (by decide) rfl,
      parseAux_flat rest r stack (Instr.right :: acc)]
    simp
  | Instr.dot :: rest =>
    have hf : flatL (Instr.dot :: rest) = '.' :: flatL rest := by simp [flatL, flatI]
    rw [hf, List.cons_append,
      parseAux_plain '.' Instr.dot _ _ _ (by decide) (by decide) rfl,
      parseAux_flat rest r stack (Instr.dot :: acc)]
    simp
  | Instr.comma :: rest =>
    have hf : flatL (Instr.comma :: rest) = ',' :: flatL rest := by simp [flatL, flatI]
    rw [hf, List.cons_append,
      parseAux_plain ',' Instr.comma _ _ _ (by decide) (by decide) rfl,
      parseAux_flat rest r stack (Instr.comma :: acc)]
    simp
  | Instr.loop body :: rest =>
    have hf : flatL (Instr.loop body :: rest)
        = '[' :: (flatL body ++ (']' :: flatL rest)) := by
      simp [flatL, flatI, List.append_assoc]
    rw [hf, List.cons_append, parseAux_open]
    have hassoc : (flatL body ++ (']' :: flatL rest)) ++ r
        = flatL body ++ (']' :: (flatL rest ++ r)) := by
      simp [List.append_assoc]
    rw [hassoc]
    rw [parseAux_flat body (']' :: (flatL rest ++ r)) (acc :: stack) []]
    rw [parseAux_close]
    rw [parseAux_flat rest r stack _]
    simp
termination_by sizeOf p

/-- Parsing the flattening of a structured program recovers it. -/
theorem parse_flat (p : List Instr) : parse (flatL p) = some p := by
  have h := parseAux_flat p [] [] []
  rw [List.append_nil] at h
  unfold parse
  rw [h]
  simp [parseAux]

/-- C3: `move_cell` postcondition.  For every compiler state, source cell
`src`, destination cells `ts` (distinct, with `src` not among them) and
multiplier `m`, `move_cell` succeeds, and executing the emitted chunk
under the target-machine semantics from any tape whose head is at the
recorded head leaves the head back at `src`, leaves `src` holding zero,
adds `m ×` the initial value of `src` to the previous content of each
destination cell, and touches no other cell. -/
theorem move_cell_postcondition (c : Compiler) (src : Nat) (ts : List Nat) (m : Nat)
    (t : Int → ZMod 256) (inp out : List (ZMod 256)) (f : Nat)
    (hsrc : src ∉ ts) (hnd : ts.Nodup) (hf : (t (src : Int)).val ≤ f) :
    ∃ c' d s', c.move_cell src ts m = Except.ok c'
      ∧ output c' = output c ++ d
      ∧ runBF f d ⟨t, (c.current_index : Int), inp, out⟩ = some s'
      ∧ s'.head = (src : Int)
      ∧ s'.tape (src : Int) = 0
      ∧ (∀ x ∈ ts, s'.tape (x : Int) = t (x : Int) + (m : ZMod 256) * t (src : Int))
      ∧ (∀ i : Int, i ≠ (src : Int) → (∀ x ∈ ts, i ≠ (x : Int)) → s'.tape i = t i) := by
  obtain ⟨c', hok, hcur, hna, hg, hout⟩ := move_cell_spec c src ts m
  have hd : gotoChars c.current_index src ++ flatI (moveLoop src ts m)
      = flatL (gotoI c.current_index src ++ [moveLoop src ts m]) := by
    rw [flatL_append, flat_gotoI]
    simp [flatL]
  have hsrc2 : (src : Int) ∉ ts.map (fun u : Nat => (u : Int)) := by
    intro hmem
    obtain ⟨x, hx, hxe⟩ := List.mem_map.mp hmem
    exact hsrc (by rwa [show x = src from by exact_mod_cast hxe] at hx)
  have hrun : runBF f (gotoChars c.current_index src ++ flatI (moveLoop src ts m))
        ⟨t, (c.current_index : Int), inp, out⟩
      = some ⟨fun i => if i = (src : Int) then 0
            else t i + (m : ZMod 256) * (((t (src : Int)).val : Nat) : ZMod 256)
              * (((ts.map (fun u : Nat => (u : Int))).count i : Nat) : ZMod 256),
          (src : Int), inp, out⟩ := by
    rw [hd]
    unfold runBF
    rw [parse_flat]
    simp only [Option.some_bind]
    rw [execL_append, exec_gotoI f c.current_index src t _ inp out rfl]
    simp only [Option.some_bind, execL]
    rw [exec_moveLoop src ts m ((t (src : Int)).val) f t inp out rfl hf hsrc2]
    simp only [Option.some_bind]
  refine ⟨c', _, _, hok, by rw [hout, List.append_assoc], hrun, rfl, by simp, ?_, ?_⟩
  · intro x hx
    have hxs : ¬ ((x : Int) = (src : Int)) := by
      intro h
      exact hsrc (by rwa [show x = src from by exact_mod_cast h] at hx)
    have hcount : (ts.map (fun u : Nat => (u : Int))).count ((x : Nat) : Int) = 1 :=
      List.count_eq_one_of_mem (hnd.map (fun a b => by exact_mod_cast id))
        (List.mem_map.mpr ⟨x, hx, rfl⟩)
    simp only [hxs, if_false, hcount]
    rw [ZMod.natCast_zmod_val]
    push_cast
    ring
  · intro i hine hint
    have hcount : (ts.map (fun u : Nat => (u : Int))).count i = 0 := by
      rw [List.count_eq_zero]
      intro hmem
      obtain ⟨x, hx, hxe⟩ := List.mem_map.mp hmem
      exact hint x hx hxe.symm
    simp only [hine, if_false, hcount]
    push_cast
    ring

/-- Witness for C3 at a concrete input: source cell 0 holding 3,
destination cell 1, multiplier 2. -/
theorem move_cell_postcondition_witness :
    ∃ c' d s', (Compiler.mk [] 0 0 []).move_cell 0 [1] 2 = Except.ok c'
      ∧ output c' = output (Compiler.mk [] 0 0 []) ++ d
      ∧ runBF 3 d ⟨fun i => if i = 0 then (3 : ZMod 256) else 0,
          ((Compiler.mk [] 0 0 []).current_index : Int), [], []⟩ = some s'
      ∧ s'.head = ((0 : Nat) : Int)
      ∧ s'.tape ((0 : Nat) : Int) = 0
      ∧ (∀ x ∈ ([1] : List Nat), s'.tape (x : Int)
          = (if (x : Int) = 0 then (3 : ZMod 256) else 0)
            + ((2 : Nat) : ZMod 256) * (if ((0 : Nat) : Int) = 0 then (3 : ZMod 256) else 0))
      ∧ (∀ i : Int, i ≠ ((0 : Nat) : Int) → (∀ x ∈ ([1] : List Nat), i ≠ (x : Int)) →
          s'.tape i = (if i = 0 then (3 : ZMod 256) else 0)) :=
  move_cell_postcondition (Compiler.mk [] 0 0 []) 0 [1] 2
    (fun i => if i = 0 then (3 : ZMod 256) else 0) [] [] 3
    (by decide) (by decide) (by decide)

/-- C2 (code evaluation at the failing input): with cells 0 and 1 live
(`non_allocated = 2`), freeing cell 0 puts it in `gaps`, but `allocate`
then returns `gaps[0]` WITHOUT removing it, so a second `allocate`
returns the same, now-live, index 0 again — the source's `allocate`
never removes the element it returns, contradicting the spec's "return
and remove" and the allocator-injectivity property. -/
theorem allocate_returns_live_index :
    ((Compiler.mk [] 0 2 []).free_cell 0).gaps = [0]
    ∧ (((Compiler.mk [] 0 2 []).free_cell 0).allocate).1 = 0
    ∧ ((((Compiler.mk [] 0 2 []).free_cell 0).allocate).2.allocate).1 = 0
    ∧ ((((Compiler.mk [] 0 2 []).free_cell 0).allocate).2.allocate).2.gaps = [0] := by
  refine ⟨?_, ?_, ?_, ?_⟩ <;> rfl

/-- C9 (code evaluation at the failing input): `VirtualIntegerType.__eq__`
tests `type(other) == VirtualInteger` — the VALUE class — so two
virtual-integer type objects compare unequal (equality is not even
reflexive for this type), while a VirtualInteger value compares equal to
the type; `ByteType`, `ListType` and `VirtualListType` equality behave
as the spec says. -/
theorem virtual_integer_type_eq_fails :
    pyEq PyObj.virtualIntegerType PyObj.virtualIntegerType = false
    ∧ pyEq PyObj.virtualIntegerType PyObj.virtualIntegerObj = true
    ∧ pyEq PyObj.byteType PyObj.byteType = true
    ∧ pyEq PyObj.virtualListType PyObj.virtualListType = true
    ∧ pyEq (PyObj.listType PyObj.byteType) (PyObj.listType PyObj.byteType) = true := by
  refine ⟨?_, ?_, ?_, ?_, ?_⟩ <;> rfl

/-- C6 counterexample: at the concrete state with live cells 0 and 1,
`= (byte, byte)` succeeds but the source byte (cell 1) is NOT freed —
the allocator bookkeeping is untouched (freeing 1 would have decremented
`non_allocated` to 1 or put 1 into `gaps`). -/
theorem assign_does_not_free :
    ∃ c', assign (Compiler.mk [] 0 2 []) 0 1 = Except.ok c'
      ∧ c'.non_allocated = 2 ∧ c'.gaps = []
      ∧ ¬ (c'.non_allocated = 1 ∨ 1 ∈ c'.gaps) :=
  ⟨_, rfl, rfl, rfl, by decide⟩

/-- C6 amended: the `=` intrinsic on (byte, byte) zeroes the destination
cell (emitting `[-]` at it) and then performs `move_cell` from the source
cell to the destination cell — so the emitted code stores the source's
runtime value in the destination and zeroes the source — but the source
byte is NOT freed: the allocator state is returned unchanged. -/
theorem assign_spec (c : Compiler) (x y : Nat) (t : Int → ZMod 256)
    (inp out : List (ZMod 256)) (f : Nat) (hxy : x ≠ y)
    (hfx : (t (x : Int)).val ≤ f) (hfy : (t (y : Int)).val ≤ f) :
    ∃ c' d s', assign c x y = Except.ok c'
      ∧ c'.non_allocated = c.non_allocated
      ∧ c'.gaps = c.gaps
      ∧ output c' = output c ++ d
      ∧ runBF f d ⟨t, (c.current_index : Int), inp, out⟩ = some s'
      ∧ s'.head = (y : Int)
      ∧ s'.tape (x : Int) = t (y : Int)
      ∧ s'.tape (y : Int) = 0 := by
  obtain ⟨c', hok, hcur, hna, hg, hout⟩ :=
    move_cell_spec ((c.goto x).execute ['[', '-', ']']) y [x] 1
  have hyx : ((y : Nat) : Int) ≠ ((x : Nat) : Int) := by
    intro h
    exact hxy (by exact_mod_cast h.symm)
  have hxyI : ((x : Nat) : Int) ≠ ((y : Nat) : Int) := by
    intro h
    exact hxy (by exact_mod_cast h)
  have hsrc2 : ((y : Nat) : Int) ∉ [x].map (fun u : Nat => (u : Int)) := by
    simp [hyx]
  have hky : ((upd t (x : Int) 0) ((y : Nat) : Int)).val = (t (y : Int)).val := by
    rw [upd_other _ _ _ _ hyx]
  have hrun : runBF f (gotoChars c.current_index x ++ (['[', '-', ']']
        ++ (gotoChars x y ++ flatI (moveLoop y [x] 1)))) ⟨t, (c.current_index : Int), inp, out⟩
      = some ⟨fun i => if i = ((y : Nat) : Int) then 0
            else upd t (x : Int) 0 i + ((1 : Nat) : ZMod 256)
              * (((t (y : Int)).val : Nat) : ZMod 256)
              * ((([x].map (fun u : Nat => (u : Int))).count i : Nat) : ZMod 256),
          ((y : Nat) : Int), inp, out⟩ := by
    have hflat : gotoChars c.current_index x ++ (['[', '-', ']']
        ++ (gotoChars x y ++ flatI (moveLoop y [x] 1)))
        = flatL (gotoI c.current_index x ++ ([Instr.loop [Instr.minus]]
            ++ (gotoI x y ++ [moveLoop y [x] 1]))) := by
      simp [flatL_append, flat_gotoI, flatL, flatI]
    rw [hflat]
    unfold runBF
    rw [parse_flat]
    simp only [Option.some_bind]
    rw [execL_append, exec_gotoI f c.current_index x t _ inp out rfl]
    simp only [Option.some_bind]
    rw [execL_append]
    simp only [execL, Option.some_bind]
    rw [exec_zeroLoop ((t (x : Int)).val) f ⟨t, ((x : Nat) : Int), inp, out⟩ rfl hfx]
    simp only [Option.some_bind]
    rw [execL_append]
    rw [exec_gotoI f x y (upd t (x : Int) 0) _ inp out rfl]
    simp only [Option.some_bind, execL]
    rw [exec_moveLoop y [x] 1 ((t (y : Int)).val) f (upd t (x : Int) 0) inp out hky hfy hsrc2]
    simp only [Option.some_bind]
  refine ⟨c', _, _, hok, by simp [hna], by simp [hg], ?_, hrun, rfl, ?_, ?_⟩
  · rw [hout]
    simp [List.append_assoc]
  · show (if ((x : Nat) : Int) = ((y : Nat) : Int) then 0
        else upd t (x : Int) 0 ((x : Nat) : Int) + ((1 : Nat) : ZMod 256)
          * (((t (y : Int)).val : Nat) : ZMod 256)
          * ((([x].map (fun u : Nat => (u : Int))).count ((x : Nat) : Int) : Nat) : ZMod 256))
      = t (y : Int)
    rw [if_neg hxyI, upd_same]
    simp only [List.map_cons, List.map_nil, List.count_cons, List.count_nil,
      beq_self_eq_true, if_true]
    rw [ZMod.natCast_zmod_val]
    push_cast
    ring
  · show (if ((y : Nat) : Int) = ((y : Nat) : Int) then 0 else _) = 0
    rw [if_pos rfl]

/-- Witness for the amended C6 at a concrete input: destination cell 0,
source cell 1 holding 5. -/
theorem assign_spec_witness :
    ∃ c' d s', assign (Compiler.mk [] 0 2 []) 0 1 = Except.ok c'
      ∧ c'.non_allocated = (Compiler.mk [] 0 2 []).non_allocated
      ∧ c'.gaps = (Compiler.mk [] 0 2 []).gaps
      ∧ output c' = output (Compiler.mk [] 0 2 []) ++ d
      ∧ runBF 5 d ⟨fun i => if i = 1 then (5 : ZMod 256) else 0,
          ((Compiler.mk [] 0 2 []).current_index : Int), [], []⟩ = some s'
      ∧ s'.head = ((1 : Nat) : Int)
      ∧ s'.tape ((0 : Nat) : Int) = (if ((1 : Nat) : Int) = 1 then (5 : ZMod 256) else 0)
      ∧ s'.tape ((1 : Nat) : Int) = 0 :=
  assign_spec (Compiler.mk [] 0 2 []) 0 1
    (fun i => if i = 1 then (5 : ZMod 256) else 0) [] [] 5
    (by decide) (by decide) (by decide)

/-- The subtraction loop drains `y` while decrementing `x` once per
iteration: `x` ends holding `x - y` (mod 256), `y` ends at zero. -/
theorem exec_subLoop (x y : Nat) (k f : Nat) (t : Int → ZMod 256)
    (inp out : List (ZMod 256))
    (hxy : ((x : Nat) : Int) ≠ ((y : Nat) : Int))
    (hk : (t (y : Int)).val = k) (hf : k ≤ f) :
    execI f (subLoopI x y) ⟨t, (y : Int), inp, out⟩
      = some ⟨fun i => if i = (y : Int) then 0
            else if i = (x : Int) then t i - (k : ZMod 256) else t i,
          (y : Int), inp, out⟩ := by
  induction k generalizing t f with
  | zero =>
    have h0 : t (y : Int) = 0 := (ZMod.val_eq_zero _).mp hk
    have hz : execI f (subLoopI x y) ⟨t, (y : Int), inp, out⟩
        = some ⟨t, (y : Int), inp, out⟩ := execI_loop_zero f _ _ h0
    rw [hz]
    refine congrArg some ?_
    simp only [TapeState.mk.injEq, and_true, true_and]
    have hxy2 : ¬ x = y := fun h => hxy (by exact_mod_cast h)
    funext i
    by_cases hiy : i = (y : Int)
    · simp [hiy, h0]
    · by_cases hix : i = (x : Int) <;> simp [hiy, hix, hxy2]
  | succ k ih =>
    have hne : ¬ ((⟨t, (y : Int), inp, out⟩ : TapeState).tape
        (⟨t, (y : Int), inp, out⟩ : TapeState).head) = 0 := by
      intro h
      simp only at h
      rw [h, ZMod.val_zero] at hk
      omega
    obtain ⟨f2, rfl⟩ : ∃ f2, f = f2 + 1 := ⟨f - 1, by omega⟩
    have hstep : execI (f2 + 1) (subLoopI x y) ⟨t, (y : Int), inp, out⟩
        = (execL (f2 + 1) (Instr.minus :: (gotoI y x ++ Instr.minus :: gotoI x y))
            ⟨t, (y : Int), inp, out⟩).bind (execI f2 (subLoopI x y)) :=
      execI_loop_succ f2 _ _ hne
    rw [hstep]
    simp only [execL, execI, Option.some_bind]
    rw [execL_append, exec_gotoI (f2 + 1) y x (upd t (y : Int) (t (y : Int) - 1)) _ inp out rfl]
    simp only [Option.some_bind, execL, execI]
    rw [exec_gotoI (f2 + 1) x y _ _ inp out rfl]
    simp only [Option.some_bind]
    have hyval : ((upd (upd t (y : Int) (t (y : Int) - 1)) ((x : Nat) : Int)
          (upd t (y : Int) (t (y : Int) - 1) ((x : Nat) : Int) - 1)) ((y : Nat) : Int)).val
        = k := by
      rw [upd_other _ _ _ _ (fun h => hxy h.symm), upd_same]
      exact val_pred _ k hk
    rw [ih f2 _ hyval (by omega)]
    refine congrArg some ?_
    simp only [TapeState.mk.injEq, and_true, true_and]
    funext i
    by_cases hiy : i = (y : Int)
    · simp [hiy]
    · by_cases hix : i = (x : Int)
      · subst hix
        rw [if_neg hiy, if_pos rfl, if_neg hiy, if_pos rfl, upd_same,
          upd_other _ _ _ _ hxy]
        push_cast
        ring
      · rw [if_neg hiy, if_neg hix, if_neg hiy, if_neg hix,
          upd_other _ _ _ _ hix, upd_other _ _ _ _ hiy]

/-- C7 (intended behavior, modelled from the spec): the `-= (byte,
byte)` intrinsic emits `goto y` followed by the loop `[- goto x, -,
goto y]`, never faults, frees `y`, and the emitted code subtracts `y`'s
runtime value from `x`'s cell (mod 256), zeroing `y`.  (The source
`isub` itself raises `NameError` — it references the undefined name
`self` — before emitting anything; see the claim record.) -/
theorem isub_intended_spec (c : Compiler) (x y : Nat) (t : Int → ZMod 256)
    (inp out : List (ZMod 256)) (f : Nat) (hxy : x ≠ y)
    (hf : (t (y : Int)).val ≤ f) :
    ∃ c' s', isub_intended c x y = Except.ok c'
      ∧ output c' = output c ++ (gotoChars c.current_index y ++ flatI (subLoopI x y))
      ∧ ((c'.non_allocated = c.non_allocated - 1 ∧ c'.gaps = c.gaps)
          ∨ (c'.non_allocated = c.non_allocated ∧ c'.gaps = c.gaps ++ [y]))
      ∧ runBF f (gotoChars c.current_index y ++ flatI (subLoopI x y))
          ⟨t, (c.current_index : Int), inp, out⟩ = some s'
      ∧ s'.head = (y : Int)
      ∧ s'.tape (x : Int) = t (x : Int) - t (y : Int)
      ∧ s'.tape (y : Int) = 0 := by
  have hxyI : ((x : Nat) : Int) ≠ ((y : Nat) : Int) := by
    intro h
    exact hxy (by exact_mod_cast h)
  have hl := loop_ok (c.goto y)
    (fun c0 => Except.ok ((((c0.execute ['-']).goto x).execute ['-']).goto y))
    _ rfl (by simp)
  have hrun : runBF f (gotoChars c.current_index y ++ flatI (subLoopI x y))
        ⟨t, (c.current_index : Int), inp, out⟩
      = some ⟨fun i => if i = ((y : Nat) : Int) then 0
            else if i = ((x : Nat) : Int) then t i - (((t (y : Int)).val : Nat) : ZMod 256)
            else t i,
          ((y : Nat) : Int), inp, out⟩ := by
    have hflat : gotoChars c.current_index y ++ flatI (subLoopI x y)
        = flatL (gotoI c.current_index y ++ [subLoopI x y]) := by
      simp [flatL_append, flat_gotoI, flatL]
    rw [hflat]
    unfold runBF
    rw [parse_flat]
    simp only [Option.some_bind]
    rw [execL_append, exec_gotoI f c.current_index y t _ inp out rfl]
    simp only [Option.some_bind, execL]
    rw [exec_subLoop x y ((t (y : Int)).val) f t inp out hxyI rfl hf]
    simp only [Option.some_bind]
  refine ⟨(((((((c.goto y).execute ['[']).execute ['-']).goto x).execute
      ['-']).goto y).execute [']']).free_cell y, _, ?_, ?_, ?_, hrun, rfl, ?_, by simp⟩
  · unfold isub_intended
    rw [hl]
    rfl
  · simp only [free_cell_output, output_execute, output_goto, execute_current, goto_current]
    simp [flatI, subLoopI, flatL, flatL_append, flat_gotoI, List.append_assoc]
  · unfold Compiler.free_cell
    split
    · left
      constructor <;> simp
    · right
      constructor <;> simp
  · show (if ((x : Nat) : Int) = ((y : Nat) : Int) then 0
        else if ((x : Nat) : Int) = ((x : Nat) : Int)
          then t ((x : Nat) : Int) - (((t (y : Int)).val : Nat) : ZMod 256)
          else t ((x : Nat) : Int))
      = t (x : Int) - t (y : Int)
    rw [if_neg hxyI, if_pos rfl, ZMod.natCast_zmod_val]

/-- Witness for C7's intended-behavior theorem at a concrete input:
x = cell 0 holding 7, y = cell 1 holding 3. -/
theorem isub_intended_spec_witness :
    ∃ c' s', isub_intended (Compiler.mk [] 0 2 []) 0 1 = Except.ok c'
      ∧ output c' = output (Compiler.mk [] 0 2 [])
          ++ (gotoChars (Compiler.mk [] 0 2 []).current_index 1 ++ flatI (subLoopI 0 1))
      ∧ ((c'.non_allocated = (Compiler.mk [] 0 2 []).non_allocated - 1
            ∧ c'.gaps = (Compiler.mk [] 0 2 []).gaps)
          ∨ (c'.non_allocated = (Compiler.mk [] 0 2 []).non_allocated
            ∧ c'.gaps = (Compiler.mk [] 0 2 []).gaps ++ [1]))
      ∧ runBF 3 (gotoChars (Compiler.mk [] 0 2 []).current_index 1 ++ flatI (subLoopI 0 1))
          ⟨fun i => if i = 0 then (7 : ZMod 256) else if i = 1 then 3 else 0,
            ((Compiler.mk [] 0 2 []).current_index : Int), [], []⟩ = some s'
      ∧ s'.head = ((1 : Nat) : Int)
      ∧ s'.tape ((0 : Nat) : Int)
          = (if ((0 : Nat) : Int) = 0 then (7 : ZMod 256)
              else if ((0 : Nat) : Int) = 1 then 3 else 0)
            - (if ((1 : Nat) : Int) = 0 then (7 : ZMod 256)
              else if ((1 : Nat) : Int) = 1 then 3 else 0)
      ∧ s'.tape ((1 : Nat) : Int) = 0 :=
  isub_intended_spec (Compiler.mk [] 0 2 []) 0 1
    (fun i => if i = 0 then (7 : ZMod 256) else if i = 1 then 3 else 0) [] [] 3
    (by decide) (by decide)

/-- The `!` loop body runs at most once: it zeroes `x`, and decrements
`z` exactly when `x` was non-zero. -/
theorem exec_notLoop (x z : Nat) (f : Nat) (t : Int → ZMod 256)
    (inp out : List (ZMod 256)) (hzx : ((z : Nat) : Int) ≠ ((x : Nat) : Int))
    (hf : (t (x : Int)).val + 1 ≤ f) :
    execI f (notLoopI x z) ⟨t, (x : Int), inp, out⟩
      = some ⟨fun i => if i = (x : Int) then 0
            else if i = (z : Int) then (if t (x : Int) = 0 then t i else t i - 1)
            else t i, (x : Int), inp, out⟩ := by
  by_cases h0 : t (x : Int) = 0
  · have hz : execI f (notLoopI x z) ⟨t, (x : Int), inp, out⟩
        = some ⟨t, (x : Int), inp, out⟩ := execI_loop_zero f _ _ h0
    rw [hz]
    refine congrArg some ?_
    simp only [TapeState.mk.injEq, and_true, true_and]
    funext i
    by_cases hix : i = (x : Int)
    · simp [hix, h0]
    · have hzx2 : ¬ z = x := fun h => hzx (by exact_mod_cast h)
      by_cases hiz : i = (z : Int) <;> simp [hix, hiz, h0, hzx2]
  · have hne : ¬ ((⟨t, (x : Int), inp, out⟩ : TapeState).tape
        (⟨t, (x : Int), inp, out⟩ : TapeState).head) = 0 := h0
    obtain ⟨f2, rfl⟩ : ∃ f2, f = f2 + 1 := ⟨f - 1, by omega⟩
    have hstep : execI (f2 + 1) (notLoopI x z) ⟨t, (x : Int), inp, out⟩
        = (execL (f2 + 1)
            (Instr.loop [Instr.minus] :: (gotoI x z ++ Instr.minus :: gotoI z x))
            ⟨t, (x : Int), inp, out⟩).bind (execI f2 (notLoopI x z)) :=
      execI_loop_succ f2 _ _ hne
    rw [hstep]
    simp only [execL]
    rw [exec_zeroLoop ((t (x : Int)).val) (f2 + 1) ⟨t, (x : Int), inp, out⟩ rfl (by omega)]
    simp only [Option.some_bind]
    rw [execL_append, exec_gotoI (f2 + 1) x z (upd t (x : Int) 0) _ inp out rfl]
    simp only [Option.some_bind, execL, execI]
    rw [exec_gotoI (f2 + 1) z x _ _ inp out rfl]
    simp only [Option.some_bind]
    have hT2x : (upd (upd t (x : Int) 0) ((z : Nat) : Int)
        ((upd t (x : Int) 0) ((z : Nat) : Int) - 1)) ((x : Nat) : Int) = 0 := by
      rw [upd_other _ _ _ _ (fun h => hzx h.symm), upd_same]
    have hz2 : execI f2 (notLoopI x z)
        ⟨upd (upd t (x : Int) 0) ((z : Nat) : Int)
            ((upd t (x : Int) 0) ((z : Nat) : Int) - 1), ((x : Nat) : Int), inp, out⟩
        = some ⟨upd (upd t (x : Int) 0) ((z : Nat) : Int)
            ((upd t (x : Int) 0) ((z : Nat) : Int) - 1), ((x : Nat) : Int), inp, out⟩ :=
      execI_loop_zero f2 _ _ hT2x
    rw [hz2]
    refine congrArg some ?_
    simp only [TapeState.mk.injEq, and_true, true_and]
    funext i
    by_cases hix : i = (x : Int)
    · rw [if_pos hix]
      rw [hix]
      exact hT2x
    · by_cases hiz : i = (z : Int)
      · rw [if_neg hix, if_pos hiz, if_neg h0, hiz, upd_same,
          upd_other _ _ _ _ hzx]
      · rw [if_neg hix, if_neg hiz, upd_other _ _ _ _ hiz, upd_other _ _ _ _ hix]

theorem allocate_non_allocated_ge (c : Compiler) :
    c.non_allocated ≤ (c.allocate).2.non_allocated := by
  cases hg : c.gaps <;> simp [Compiler.allocate, hg]

/-- C10: the `!` intrinsic never frees its operand.  `nnot` succeeds,
returns the freshly allocated cell, and the operand's cell stays live in
the allocator bookkeeping (it is below the high-water mark and not in
`gaps`), even though the emitted code leaves that cell holding zero at
runtime. -/
theorem nnot_operand_not_freed (c : Compiler) (x : Nat) (t : Int → ZMod 256)
    (inp out : List (ZMod 256)) (f : Nat)
    (hx1 : x < c.non_allocated) (hx2 : x ∉ c.gaps)
    (hfy : (t ((c.allocate).1 : Int)).val ≤ f) (hfx : (t (x : Int)).val + 1 ≤ f) :
    ∃ c' s', nnot c x = Except.ok ((c.allocate).1, c')
      ∧ x < c'.non_allocated ∧ x ∉ c'.gaps
      ∧ output c' = output c ++ (gotoChars c.current_index (c.allocate).1
          ++ (['[', '-', ']', '+'] ++ (gotoChars (c.allocate).1 x
            ++ flatI (notLoopI x (c.allocate).1))))
      ∧ runBF f (gotoChars c.current_index (c.allocate).1
          ++ (['[', '-', ']', '+'] ++ (gotoChars (c.allocate).1 x
            ++ flatI (notLoopI x (c.allocate).1))))
          ⟨t, (c.current_index : Int), inp, out⟩ = some s'
      ∧ s'.head = (x : Int)
      ∧ s'.tape (x : Int) = 0 := by
  have hyx : (c.allocate).1 ≠ x := by
    cases hg : c.gaps with
    | nil =>
      have hy : (c.allocate).1 = c.non_allocated := by simp [Compiler.allocate, hg]
      omega
    | cons g rest =>
      have hy : (c.allocate).1 = g := by simp [Compiler.allocate, hg]
      intro h
      exact hx2 (by rw [hg, ← h, hy]; exact List.mem_cons_self g rest)
  have hyxI : (((c.allocate).1 : Nat) : Int) ≠ ((x : Nat) : Int) := by
    intro h
    exact hyx (by exact_mod_cast h)
  have htape2x : (upd (upd t ((c.allocate).1 : Int) 0) (((c.allocate).1 : Nat) : Int)
        ((upd t ((c.allocate).1 : Int) 0) (((c.allocate).1 : Nat) : Int) + 1))
        ((x : Nat) : Int) = t ((x : Nat) : Int) := by
    rw [upd_other _ _ _ _ (fun h => hyxI h.symm), upd_other _ _ _ _ (fun h => hyxI h.symm)]
  have hrun : runBF f (gotoChars c.current_index (c.allocate).1
        ++ (['[', '-', ']', '+'] ++ (gotoChars (c.allocate).1 x
          ++ flatI (notLoopI x (c.allocate).1))))
        ⟨t, (c.current_index : Int), inp, out⟩
      = some ⟨fun i => if i = ((x : Nat) : Int) then 0
            else if i = (((c.allocate).1 : Nat) : Int) then
              (if (upd (upd t ((c.allocate).1 : Int) 0) (((c.allocate).1 : Nat) : Int)
                  ((upd t ((c.allocate).1 : Int) 0) (((c.allocate).1 : Nat) : Int) + 1))
                  ((x : Nat) : Int) = 0
                then (upd (upd t ((c.allocate).1 : Int) 0) (((c.allocate).1 : Nat) : Int)
                  ((upd t ((c.allocate).1 : Int) 0) (((c.allocate).1 : Nat) : Int) + 1)) i
                else (upd (upd t ((c.allocate).1 : Int) 0) (((c.allocate).1 : Nat) : Int)
                  ((upd t ((c.allocate).1 : Int) 0) (((c.allocate).1 : Nat) : Int) + 1)) i - 1)
            else (upd (upd t ((c.allocate).1 : Int) 0) (((c.allocate).1 : Nat) : Int)
                  ((upd t ((c.allocate).1 : Int) 0) (((c.allocate).1 : Nat) : Int) + 1)) i,
          ((x : Nat) : Int), inp, out⟩ := by
    have hflat : gotoChars c.current_index (c.allocate).1
        ++ (['[', '-', ']', '+'] ++ (gotoChars (c.allocate).1 x
          ++ flatI (notLoopI x (c.allocate).1)))
        = flatL (gotoI c.current_index (c.allocate).1
            ++ ([Instr.loop [Instr.minus], Instr.plus]
              ++ (gotoI (c.allocate).1 x ++ [notLoopI x (c.allocate).1]))) := by
      simp [flatL_append, flat_gotoI, flatL, flatI]
    rw [hflat]
    unfold runBF
    rw [parse_flat]
    simp only [Option.some_bind]
    rw [execL_append, exec_gotoI f c.current_index (c.allocate).1 t _ inp out rfl]
    simp only [Option.some_bind]
    rw [execL_append]
    simp only [execL]
    rw [exec_zeroLoop ((t ((c.allocate).1 : Int)).val) f
      ⟨t, (((c.allocate).1 : Nat) : Int), inp, out⟩ rfl hfy]
    simp only [Option.some_bind, execI]
    rw [execL_append, exec_gotoI f (c.allocate).1 x _ _ inp out rfl]
    simp only [Option.some_bind, execL]
    rw [exec_notLoop x (c.allocate).1 f _ inp out hyxI (by rw [htape2x]; exact hfx)]
    simp only [Option.some_bind]
  refine ⟨(((((((((c.allocate).2.goto (c.allocate).1).execute
      ['[', '-', ']', '+']).goto x).execute ['[']).execute
      ['[', '-', ']']).goto (c.allocate).1).execute ['-']).goto x).execute [']'],
    _, ?_, ?_, ?_, ?_, hrun, rfl, ?_⟩
  · unfold nnot
    rcases ha : c.allocate with ⟨y, c1⟩
    simp only [ha]
    rw [loop_ok (((c1.goto y).execute ['[', '-', ']', '+']).goto x)
      (fun c0 => Except.ok ((((c0.execute ['[', '-', ']']).goto y).execute ['-']).goto x))
      _ rfl (by simp)]
    rfl
  · calc x < c.non_allocated := hx1
      _ ≤ (c.allocate).2.non_allocated := allocate_non_allocated_ge c
      _ = _ := by simp
  · simpa using hx2
  · simp [flatI, notLoopI, flatL, flatL_append, flat_gotoI, List.append_assoc]
  · show (if ((x : Nat) : Int) = ((x : Nat) : Int) then 0 else _) = 0
    rw [if_pos rfl]

/-- Witness for C10 at a concrete input: operand cell 0 holding 2, one
live cell, so the fresh cell is 1. -/
theorem nnot_operand_not_freed_witness :
    ∃ c' s', nnot (Compiler.mk [] 0 1 []) 0
        = Except.ok (((Compiler.mk [] 0 1 []).allocate).1, c')
      ∧ 0 < c'.non_allocated ∧ 0 ∉ c'.gaps
      ∧ output c' = output (Compiler.mk [] 0 1 [])
          ++ (gotoChars (Compiler.mk [] 0 1 []).current_index
              ((Compiler.mk [] 0 1 []).allocate).1
            ++ (['[', '-', ']', '+'] ++ (gotoChars ((Compiler.mk [] 0 1 []).allocate).1 0
              ++ flatI (notLoopI 0 ((Compiler.mk [] 0 1 []).allocate).1))))
      ∧ runBF 3 (gotoChars (Compiler.mk [] 0 1 []).current_index
              ((Compiler.mk [] 0 1 []).allocate).1
            ++ (['[', '-', ']', '+'] ++ (gotoChars ((Compiler.mk [] 0 1 []).allocate).1 0
              ++ flatI (notLoopI 0 ((Compiler.mk [] 0 1 []).allocate).1))))
          ⟨fun i => if i = 0 then (2 : ZMod 256) else 0,
            ((Compiler.mk [] 0 1 []).current_index : Int), [], []⟩ = some s'
      ∧ s'.head = ((0 : Nat) : Int)
      ∧ s'.tape ((0 : Nat) : Int) = 0 :=
  nnot_operand_not_freed (Compiler.mk [] 0 1 []) 0
    (fun i => if i = 0 then (2 : ZMod 256) else 0) [] [] 3
    (by decide) (by decide) (by decide) (by decide)

/-- C8 (intended behavior of `Byte.copy`'s emission): from a state with
no gaps, `copy` allocates `a1 = non_allocated` and `a2 = non_allocated +
1`, and — when the fresh cells hold zero — the emitted code leaves the
new cell `a1` holding the original value, restores the original cell,
leaves `a2` at zero, and `a2` is freed (the high-water mark drops back
to `non_allocated + 1`).  The Python method itself then crashes: its
final `Byte(self.compiler, a1)` omits the `pointer` argument and raises
`TypeError` (see the claim record). -/
theorem copy_spec (c : Compiler) (p : Nat) (t : Int → ZMod 256)
    (inp out : List (ZMod 256)) (f : Nat)
    (hg : c.gaps = []) (hp : p < c.non_allocated)
    (ha1 : t ((c.non_allocated : Nat) : Int) = 0)
    (ha2 : t ((c.non_allocated + 1 : Nat) : Int) = 0)
    (hf : (t (p : Int)).val ≤ f) :
    ∃ c' d s', c.copy p = Except.ok (c.non_allocated, c')
      ∧ c'.non_allocated = c.non_allocated + 1
      ∧ c'.gaps = []
      ∧ output c' = output c ++ d
      ∧ runBF f d ⟨t, (c.current_index : Int), inp, out⟩ = some s'
      ∧ s'.tape ((c.non_allocated : Nat) : Int) = t (p : Int)
      ∧ s'.tape (p : Int) = t (p : Int)
      ∧ s'.tape ((c.non_allocated + 1 : Nat) : Int) = 0 := by
  have hpa1I : ((p : Nat) : Int) ≠ ((c.non_allocated : Nat) : Int) := by
    intro h
    have : p = c.non_allocated := by exact_mod_cast h
    omega
  have hpa2I : ((p : Nat) : Int) ≠ ((c.non_allocated + 1 : Nat) : Int) := by
    intro h
    have : p = c.non_allocated + 1 := by exact_mod_cast h
    omega
  have ha12I : ((c.non_allocated : Nat) : Int) ≠ ((c.non_allocated + 1 : Nat) : Int) := by
    intro h
    have : c.non_allocated = c.non_allocated + 1 := by exact_mod_cast h
    omega
  have hbe1 : (((c.non_allocated : Nat) : Int) == ((c.non_allocated + 1 : Nat) : Int))
      = false := by
    rw [beq_eq_false_iff_ne]
    exact ha12I
  have hbe2 : (((c.non_allocated + 1 : Nat) : Int) == ((c.non_allocated : Nat) : Int))
      = false := by
    rw [beq_eq_false_iff_ne]
    exact fun h => ha12I (Eq.symm h)
  have hbe3 : (((p : Nat) : Int) == ((c.non_allocated : Nat) : Int)) = false := by
    rw [beq_eq_false_iff_ne]
    exact hpa1I
  have hcnta2 : ([c.non_allocated, c.non_allocated + 1].map
      (fun u : Nat => (u : Int))).count ((c.non_allocated + 1 : Nat) : Int) = 1 := by
    simp only [List.map_cons, List.map_nil, List.count_cons, List.count_nil,
      hbe1, beq_self_eq_true, if_true, if_false]
    simp
  have hcnta1 : ([c.non_allocated, c.non_allocated + 1].map
      (fun u : Nat => (u : Int))).count ((c.non_allocated : Nat) : Int) = 1 := by
    simp only [List.map_cons, List.map_nil, List.count_cons, List.count_nil,
      hbe2, beq_self_eq_true, if_true, if_false]
    simp
  have hcnt2a1 : ([p].map (fun u : Nat => (u : Int))).count ((c.non_allocated : Nat) : Int)
      = 0 := by
    simp only [List.map_cons, List.map_nil, List.count_cons, List.count_nil,
      hbe3, if_false]
    simp
  have hcnt2p : ([p].map (fun u : Nat => (u : Int))).count ((p : Nat) : Int) = 1 := by
    simp only [List.map_cons, List.map_nil, List.count_cons, List.count_nil,
      beq_self_eq_true, if_true]
  have hallocc : c.allocate
      = (c.non_allocated, { c with non_allocated := c.non_allocated + 1 }) := by
    simp [Compiler.allocate, hg]
  have halloc1 : ({ c with non_allocated := c.non_allocated + 1 } : Compiler).allocate
      = (c.non_allocated + 1, { c with non_allocated := c.non_allocated + 2 }) := by
    simp [Compiler.allocate, hg]
  obtain ⟨cm1, hok1, hcur1, hna1, hg1, hout1⟩ :=
    move_cell_spec ({ c with non_allocated := c.non_allocated + 2 }) p
      [c.non_allocated, c.non_allocated + 1] 1
  obtain ⟨cm2, hok2, hcur2, hna2, hg2, hout2⟩ :=
    move_cell_spec cm1 (c.non_allocated + 1) [p] 1
  have hokc : c.copy p
      = Except.ok (c.non_allocated, cm2.free_cell (c.non_allocated + 1)) := by
    unfold Compiler.copy
    simp only [hallocc, halloc1]
    rw [hok1]
    simp only [bind, Except.bind]
    rw [hok2]
  have hfreena : (cm2.free_cell (c.non_allocated + 1)).non_allocated
      = c.non_allocated + 1 := by
    unfold Compiler.free_cell
    rw [if_pos (by rw [hna2, hna1])]
    simp [hna2, hna1]
  have hfreeg : (cm2.free_cell (c.non_allocated + 1)).gaps = [] := by
    unfold Compiler.free_cell
    rw [if_pos (by rw [hna2, hna1])]
    simp [hg2, hg1, hg]
  have hsrc1 : ((p : Nat) : Int)
      ∉ [c.non_allocated, c.non_allocated + 1].map (fun u : Nat => (u : Int)) := by
    intro hmem
    simp at hmem
    omega
  have hsrc2 : ((c.non_allocated + 1 : Nat) : Int)
      ∉ [p].map (fun u : Nat => (u : Int)) := by
    intro hmem
    simp at hmem
    omega
  have hT1a2 : (fun i => if i = ((p : Nat) : Int) then 0
        else t i + ((1 : Nat) : ZMod 256) * (((t (p : Int)).val : Nat) : ZMod 256)
          * ((([c.non_allocated, c.non_allocated + 1].map
              (fun u : Nat => (u : Int))).count i : Nat) : ZMod 256))
        ((c.non_allocated + 1 : Nat) : Int) = t ((p : Nat) : Int) := by
    simp only [if_neg (fun h => hpa2I (Eq.symm h)), hcnta2]
    rw [ha2, ZMod.natCast_zmod_val]
    push_cast
    ring
  have hrunC : runBF f (gotoChars c.current_index p
        ++ (flatI (moveLoop p [c.non_allocated, c.non_allocated + 1] 1)
          ++ (gotoChars p (c.non_allocated + 1)
            ++ flatI (moveLoop (c.non_allocated + 1) [p] 1))))
        ⟨t, (c.current_index : Int), inp, out⟩
      = some ⟨fun i => if i = ((c.non_allocated + 1 : Nat) : Int) then 0
            else (if i = ((p : Nat) : Int) then 0
              else t i + ((1 : Nat) : ZMod 256) * (((t (p : Int)).val : Nat) : ZMod 256)
                * ((([c.non_allocated, c.non_allocated + 1].map
                    (fun u : Nat => (u : Int))).count i : Nat) : ZMod 256))
              + ((1 : Nat) : ZMod 256) * (((t (p : Int)).val : Nat) : ZMod 256)
                * ((([p].map (fun u : Nat => (u : Int))).count i : Nat) : ZMod 256),
          ((c.non_allocated + 1 : Nat) : Int), inp, out⟩ := by
    have hflat : gotoChars c.current_index p
        ++ (flatI (moveLoop p [c.non_allocated, c.non_allocated + 1] 1)
          ++ (gotoChars p (c.non_allocated + 1)
            ++ flatI (moveLoop (c.non_allocated + 1) [p] 1)))
        = flatL (gotoI c.current_index p
            ++ ([moveLoop p [c.non_allocated, c.non_allocated + 1] 1]
              ++ (gotoI p (c.non_allocated + 1)
                ++ [moveLoop (c.non_allocated + 1) [p] 1]))) := by
      simp [flatL_append, flat_gotoI, flatL]
    rw [hflat]
    unfold runBF
    rw [parse_flat]
    simp only [Option.some_bind]
    rw [execL_append, exec_gotoI f c.current_index p t _ inp out rfl]
    simp only [Option.some_bind]
    rw [execL_append]
    simp only [execL]
    rw [exec_moveLoop p [c.non_allocated, c.non_allocated + 1] 1 ((t (p : Int)).val) f
      t inp out rfl hf hsrc1]
    simp only [Option.some_bind]
    rw [execL_append, exec_gotoI f p (c.non_allocated + 1) _ _ inp out rfl]
    simp only [Option.some_bind, execL]
    have hval2 : ((fun i => if i = ((p : Nat) : Int) then 0
          else t i + ((1 : Nat) : ZMod 256) * (((t (p : Int)).val : Nat) : ZMod 256)
            * ((([c.non_allocated, c.non_allocated + 1].map
                (fun u : Nat => (u : Int))).count i : Nat) : ZMod 256))
          ((c.non_allocated + 1 : Nat) : Int)).val = (t (p : Int)).val := by
      rw [hT1a2]
    rw [exec_moveLoop (c.non_allocated + 1) [p] 1 ((t (p : Int)).val) f _ inp out
      hval2 hf hsrc2]
    simp only [Option.some_bind]
  refine ⟨cm2.free_cell (c.non_allocated + 1),
    gotoChars c.current_index p
      ++ (flatI (moveLoop p [c.non_allocated, c.non_allocated + 1] 1)
        ++ (gotoChars p (c.non_allocated + 1)
          ++ flatI (moveLoop (c.non_allocated + 1) [p] 1))), _,
    hokc, hfreena, hfreeg, ?_, hrunC, ?_, ?_, ?_⟩
  · rw [free_cell_output, hout2, hout1]
    simp only [output_goto]
    rw [hcur1]
    simp only [List.append_assoc]
    rfl
  · simp only [if_neg ha12I, if_neg (fun h => hpa1I (Eq.symm h)), hcnta1, hcnt2a1]
    rw [ha1, ZMod.natCast_zmod_val]
    push_cast
    ring
  · simp only [if_neg hpa2I, if_pos rfl, hcnt2p]
    rw [ZMod.natCast_zmod_val]
    push_cast
    ring
  · simp only [if_pos rfl]
    simp

/-- Concrete instance of `copy_spec`: a compiler with one live cell 0 and
next free index 1, copying cell 0 on the all-zero tape with fuel 0. -/
theorem copy_spec_witness :
    ∃ c' d s', (Compiler.mk [] 0 1 []).copy 0 = Except.ok (1, c')
      ∧ c'.non_allocated = 2
      ∧ c'.gaps = ([] : List Nat)
      ∧ output c' = output (Compiler.mk [] 0 1 []) ++ d
      ∧ runBF 0 d ⟨fun _ => 0, ((0 : Nat) : Int), [], []⟩ = some s'
      ∧ s'.tape ((1 : Nat) : Int) = 0
      ∧ s'.tape ((0 : Nat) : Int) = 0
      ∧ s'.tape ((2 : Nat) : Int) = 0 :=
  copy_spec (Compiler.mk [] 0 1 []) 0 (fun _ => 0) [] [] 0 rfl (by decide) rfl rfl
    (by decide)

/-- C5: End-to-end multiply: for A and B in [0, 255], compiling the
program `byte x; x += A; x *= B; write(x);` through `compileMul` succeeds,
and simulating the emitted character sequence on the all-zero tape outputs
the single byte (A*B) mod 256. -/
theorem multiply_end_to_end (A B : Nat) (hA : A ≤ 255) (hB : B ≤ 255) :
    ∃ c' s', compileMul A B = Except.ok c'
      ∧ runBF 255 (output c') (initState []) = some s'
      ∧ s'.output = [((A * B : Nat) : ZMod 256)] := by
  obtain ⟨cm1, hok1, hcur1, hna1, hg1, hout1⟩ :=
    move_cell_spec ({ program := [[], List.replicate A '+'], current_index := 0, non_allocated := 2, gaps := [] }) 0 [1] B
  obtain ⟨cm2, hok2, hcur2, hna2, hg2, hout2⟩ := move_cell_spec cm1 1 [0] 1
  have hallocA : ({ program := [[], List.replicate A '+'], current_index := 0, non_allocated := 1, gaps := [] } : Compiler).allocate
      = (1, { program := [[], List.replicate A '+'], current_index := 0, non_allocated := 2, gaps := [] }) := rfl
  have himul : imul_virtual ({ program := [[], List.replicate A '+'], current_index := 0, non_allocated := 1, gaps := [] }) 0 B
      = Except.ok cm2 := by
    unfold imul_virtual
    simp only [hallocA]
    rw [hok1]
    simp only [bind, Except.bind]
    rw [hok2]
  have halloc0 : compiler0.allocate
      = (0, { program := [], current_index := 0, non_allocated := 1, gaps := [] }) := rfl
  have hc2 : iadd_virtual ({ program := [], current_index := 0, non_allocated := 1, gaps := [] }) 0 A
      = ({ program := [[], List.replicate A '+'], current_index := 0, non_allocated := 1, gaps := [] }) := rfl
  have hcomp : compileMul A B = Except.ok (write cm2 0) := by
    unfold compileMul
    simp only [halloc0, hc2]
    rw [himul]
    simp only [bind, Except.bind]
  have houtP : output (write cm2 0)
      = flatL (List.replicate A Instr.plus
        ++ ([moveLoop 0 [1] B] ++ (gotoI 0 1 ++ ([moveLoop 1 [0] 1]
          ++ (gotoI 1 0 ++ [Instr.dot]))))) := by
    unfold write
    rw [output_execute, output_goto, hcur2, hout2, hcur1, hout1]
    simp [output, gotoChars, flatL_append, flat_gotoI, flatL,
      flatL_replicate_plus, flatI, List.append_assoc]
  have h01 : ((0 : Nat) : Int) ≠ ((1 : Nat) : Int) := by decide
  have h10 : ((1 : Nat) : Int) ≠ ((0 : Nat) : Int) := by decide
  have hsrc1 : ((0 : Nat) : Int) ∉ [1].map (fun u : Nat => (u : Int)) := by decide
  have hsrc2 : ((1 : Nat) : Int) ∉ [0].map (fun u : Nat => (u : Int)) := by decide
  have hk1 : ((upd (fun _ : Int => (0 : ZMod 256)) ((0 : Nat) : Int)
      ((fun _ : Int => (0 : ZMod 256)) ((0 : Nat) : Int) + (A : ZMod 256)))
      ((0 : Nat) : Int)).val = A := by
    simp only [upd, if_pos rfl]
    rw [zero_add]
    exact ZMod.val_cast_of_lt (by omega)
  have hk2 : ((fun i => if i = ((0 : Nat) : Int) then (0 : ZMod 256)
      else upd (fun _ : Int => (0 : ZMod 256)) ((0 : Nat) : Int)
          ((fun _ : Int => (0 : ZMod 256)) ((0 : Nat) : Int) + (A : ZMod 256)) i
        + (B : ZMod 256) * (A : ZMod 256)
        * ((([1].map (fun u : Nat => (u : Int))).count i : Nat) : ZMod 256))
      ((1 : Nat) : Int)).val = ((A * B : Nat) : ZMod 256).val := by
    have hv : ((fun i => if i = ((0 : Nat) : Int) then (0 : ZMod 256)
        else upd (fun _ : Int => (0 : ZMod 256)) ((0 : Nat) : Int)
            ((fun _ : Int => (0 : ZMod 256)) ((0 : Nat) : Int) + (A : ZMod 256)) i
          + (B : ZMod 256) * (A : ZMod 256)
          * ((([1].map (fun u : Nat => (u : Int))).count i : Nat) : ZMod 256))
        ((1 : Nat) : Int)) = ((A * B : Nat) : ZMod 256) := by
      have hcnt1 : ([1].map (fun u : Nat => (u : Int))).count ((1 : Nat) : Int)
          = 1 := by simp
      simp only [if_neg h10, upd, hcnt1]
      push_cast
      ring
    rw [hv]
  have hf2 : ((A * B : Nat) : ZMod 256).val ≤ 255 := by
    have := ZMod.val_lt ((A * B : Nat) : ZMod 256)
    omega
  have hrun : runBF 255 (flatL (List.replicate A Instr.plus
        ++ ([moveLoop 0 [1] B] ++ (gotoI 0 1 ++ ([moveLoop 1 [0] 1]
          ++ (gotoI 1 0 ++ [Instr.dot]))))))
        ⟨fun _ : Int => (0 : ZMod 256), ((0 : Nat) : Int), [], []⟩
      = some ⟨fun i => if i = ((1 : Nat) : Int) then 0
            else (fun i => if i = ((0 : Nat) : Int) then (0 : ZMod 256)
              else upd (fun _ : Int => (0 : ZMod 256)) ((0 : Nat) : Int)
                  ((fun _ : Int => (0 : ZMod 256)) ((0 : Nat) : Int)
                    + (A : ZMod 256)) i
                + (B : ZMod 256) * (A : ZMod 256)
                * ((([1].map (fun u : Nat => (u : Int))).count i : Nat)
                  : ZMod 256)) i
              + ((1 : Nat) : ZMod 256) * (((A * B : Nat) : ZMod 256).val : ZMod 256)
              * ((([0].map (fun u : Nat => (u : Int))).count i : Nat) : ZMod 256),
          ((0 : Nat) : Int), [],
          [(fun i => if i = ((1 : Nat) : Int) then 0
            else (fun i => if i = ((0 : Nat) : Int) then (0 : ZMod 256)
              else upd (fun _ : Int => (0 : ZMod 256)) ((0 : Nat) : Int)
                  ((fun _ : Int => (0 : ZMod 256)) ((0 : Nat) : Int)
                    + (A : ZMod 256)) i
                + (B : ZMod 256) * (A : ZMod 256)
                * ((([1].map (fun u : Nat => (u : Int))).count i : Nat)
                  : ZMod 256)) i
              + ((1 : Nat) : ZMod 256) * (((A * B : Nat) : ZMod 256).val : ZMod 256)
              * ((([0].map (fun u : Nat => (u : Int))).count i : Nat) : ZMod 256))
            ((0 : Nat) : Int)]⟩ := by
    unfold runBF
    rw [parse_flat]
    simp only [Option.some_bind]
    rw [execL_append,
      exec_plus 255 A (fun _ : Int => (0 : ZMod 256)) ((0 : Nat) : Int) [] []]
    simp only [Option.some_bind]
    rw [execL_append]
    simp only [execL]
    rw [exec_moveLoop 0 [1] B A 255 _ [] [] hk1 (by omega) hsrc1]
    simp only [Option.some_bind]
    rw [execL_append, exec_gotoI 255 0 1 _ _ [] [] rfl]
    simp only [Option.some_bind]
    rw [execL_append]
    simp only [execL]
    rw [exec_moveLoop 1 [0] 1 ((A * B : Nat) : ZMod 256).val 255 _ [] [] hk2
      hf2 hsrc2]
    simp only [Option.some_bind]
    rw [execL_append, exec_gotoI 255 1 0 _ _ [] [] rfl]
    simp only [Option.some_bind]
    simp only [execL, execI, Option.some_bind, List.nil_append]
  have hcnt0 : ([0].map (fun u : Nat => (u : Int))).count ((0 : Nat) : Int)
      = 1 := by simp
  have helem : (0 : ZMod 256) + ((1 : Nat) : ZMod 256)
      * (((A * B : Nat) : ZMod 256).val : ZMod 256) * ((1 : Nat) : ZMod 256)
      = ((A * B : Nat) : ZMod 256) := by
    rw [ZMod.natCast_zmod_val]
    push_cast
    ring
  exact ⟨write cm2 0, _, hcomp, by rw [houtP]; exact hrun,
    by simp only [if_neg h01, if_pos rfl, hcnt0]
       exact congrArg (fun z : ZMod 256 => [z]) helem⟩

/-- Concrete instance of `multiply_end_to_end`: compiling `byte x; x += 6;
x *= 7; write(x);` and running it prints the byte 42. -/
theorem multiply_end_to_end_witness :
    ∃ c' s', compileMul 6 7 = Except.ok c'
      ∧ runBF 255 (output c') (initState []) = some s'
      ∧ s'.output = [((6 * 7 : Nat) : ZMod 256)] :=
  multiply_end_to_end 6 7 (by decide) (by decide)

end CF
